import Mathlib

/-!
Verification of the symmetry-axis detector in `symmetry.py`
(repository brentpicasso/symmetry).

The Python code is shallowly embedded: `Point` objects become a structure of
two real coordinates, Python floats become real numbers, Python list indexing
(including its negative-index wrap-around and its possibility of raising
`IndexError`) is modelled by `pyGet?`/`pyGet`, the observer callbacks become
an explicit event trace, and the one mutation the algorithm performs (the
in-place translation/rotation of the per-candidate deep copy) is modelled
twice: once value-level (`detect`) and once with an explicit address/store
heap (`detectH`) to state the frame property that the caller's points are
never written.
-/

namespace SymmetrySrc

/-- `class Point` of symmetry.py: a 2D coordinate pair. -/
@[ext]
structure Point where
  x : ℝ
  y : ℝ
deriving Inhabited

/-- `Symmetry.CLOSE_ENOUGH = 5`. -/
def CLOSE_ENOUGH : ℝ := 5

/-- `Symmetry._get_midpoint`. -/
noncomputable def getMidpoint (p1 p2 : Point) : Point :=
  ⟨(p1.x + p2.x) / 2, (p1.y + p2.y) / 2⟩

/-- `Symmetry._get_distance`: `(((p2.x-p1.x)**2) + ((p2.y-p1.y)**2)) ** 0.5`. -/
noncomputable def getDistance (p1 p2 : Point) : ℝ :=
  Real.sqrt ((p2.x - p1.x) ^ 2 + (p2.y - p1.y) ^ 2)

/-- `Symmetry._points_really_close`: distance strictly below `CLOSE_ENOUGH`. -/
noncomputable def pointsReallyClose (p1 p2 : Point) : Prop :=
  getDistance p1 p2 < CLOSE_ENOUGH

/-- `math.atan2 y x`, embedded as the principal argument of the complex
number `x + y i` (range `(-π, π]`, `atan2 0 0 = 0`), which agrees with the
C/Python `atan2` on real (unsigned-zero) inputs. -/
noncomputable def atan2 (y x : ℝ) : ℝ :=
  Complex.arg ⟨x, y⟩

/-- `math.degrees`. -/
noncomputable def degrees (r : ℝ) : ℝ := r * 180 / Real.pi

/-- `math.radians`. -/
noncomputable def radians (d : ℝ) : ℝ := d * Real.pi / 180

/-- `Symmetry._get_angle`: `-math.degrees(math.atan2(p2.y - p1.y, p2.x - p1.x))`. -/
noncomputable def getAngle (p1 p2 : Point) : ℝ :=
  -(degrees (atan2 (p2.y - p1.y) (p2.x - p1.x)))

/-- `Symmetry._rotate_point`: converts the degree angle to radians and applies
the standard 2D rotation, returning the updated point (the Python code writes
the two fields in place). -/
noncomputable def rotatePoint (p : Point) (angle : ℝ) : Point :=
  let a := radians angle
  ⟨p.x * Real.cos a - p.y * Real.sin a, p.x * Real.sin a + p.y * Real.cos a⟩

/-- `Symmetry._translate_shape`: subtracts `(dx, dy)` from every point of the
list (in place in Python; here the updated list is returned). -/
def translateShape (points : List Point) (dx dy : ℝ) : List Point :=
  points.map (fun pc => ⟨pc.x - dx, pc.y - dy⟩)

/-- Python list read `l[i]` with its negative-index wrap-around: `none` models
an `IndexError`. -/
def pyGet? (l : List Point) (i : ℤ) : Option Point :=
  if 0 ≤ i then l[i.toNat]?
  else if 0 ≤ (l.length : ℤ) + i then l[((l.length : ℤ) + i).toNat]?
  else none

/-- Total version of `pyGet?` (used once all accesses are known to be in
range; the `default` branch is proved unreachable on the detector's inputs). -/
def pyGet (l : List Point) (i : ℤ) : Point :=
  (pyGet? l i).getD default

/-- The body of the `for point in points` loop of `Symmetry._double_points`,
from the second iteration onwards (`prev` is `previous_point`), fused with the
trailing wrap-around append `doubled_points.append(mid(previous_point, points[0]))`:
`first` is `points[0]`. -/
noncomputable def doubleAux (prev : Point) (rest : List Point) (first : Point) :
    List Point :=
  match rest with
  | [] => [getMidpoint prev first]
  | p :: rest' => getMidpoint prev p :: p :: doubleAux p rest' first

/-- `Symmetry._double_points`: with an empty input the loop never runs and
`previous_point` stays `None`, so the result is `[]` and `points[0]` is never
read; otherwise the first iteration appends `points[0]` and the rest is
`doubleAux`. -/
noncomputable def doublePoints (points : List Point) : List Point :=
  match points with
  | [] => []
  | p0 :: rest => p0 :: doubleAux p0 rest p0

/-- The observer callbacks of `Symmetry`, recorded as an explicit trace of
synchronous notifications (`original_callback`, `translate_callback`,
`rotate_callback`, `symmetry_callback`). -/
inductive Event where
  | original : ℕ → List Point → Event
  | translate : ℕ → List Point → Event
  | rotate : ℕ → List Point → Event
  | symmetry : ℕ → Point → Point → Event

/-- Lines 115-120 of symmetry.py: the deep copy of the doubled list with the
candidate pivot `pf = points_copy[index]` translated to the origin. -/
def workTranslated (doubled : List Point) (index : ℕ) : List Point :=
  let pf := pyGet doubled (index : ℤ)
  translateShape doubled pf.x pf.y

/-- Lines 126-133 of symmetry.py: after the translation, `pf` (the list cell
at `index`, mutated in place by the translation) and the opposite point
`po = points_copy[index + half_length]` determine the rotation angle, and
every point of the working copy is rotated by it. -/
noncomputable def workRotated (doubled : List Point) (halfLength index : ℕ) :
    List Point :=
  let t := workTranslated doubled index
  let pf := pyGet t (index : ℤ)
  let po := pyGet t ((index : ℤ) + halfLength)
  t.map (fun p => rotatePoint p (getAngle pf po))

/-- One comparison of the mirror loop (lines 142-147): the points at
`index - mirror_index` (wrapping) and `index + mirror_index` are compared
through `(x, |y|)`. -/
noncomputable def mirrorClose (work : List Point) (index m : ℕ) : Prop :=
  let mirror1 := pyGet work ((index : ℤ) - m)
  let mirror2 := pyGet work ((index : ℤ) + m)
  pointsReallyClose ⟨mirror1.x, |mirror1.y|⟩ ⟨mirror2.x, |mirror2.y|⟩

/-- Lines 140-148: the `symmetrical` flag after the full mirror loop.  The
Python loop never exits early; it keeps a boolean that, once false, stays
false, which is exactly this left fold of conjunctions over all of
`range(half_length)`. -/
noncomputable def symmetricalCheck (work : List Point) (halfLength index : ℕ) :
    Prop :=
  (List.range halfLength).foldl (fun s m => s ∧ mirrorClose work index m) True

open Classical in
/-- One iteration of the candidate loop of `get_lines_of_symmetry`
(lines 111-158): notify `original`, build the translated and rotated working
copies (notifying `translate` and `rotate`), run the mirror check, and on
success append the axis `(points[index], points[opposite_index])` — read from
the original (untransformed) doubled list — and notify `symmetry`. -/
noncomputable def detectStep (doubled : List Point) (halfLength : ℕ)
    (acc : List (Point × Point) × List Event) (index : ℕ) :
    List (Point × Point) × List Event :=
  let tr := workTranslated doubled index
  let rot := workRotated doubled halfLength index
  let evs := acc.2 ++
    [Event.original index doubled, Event.translate index tr,
     Event.rotate index rot]
  if symmetricalCheck rot halfLength index then
    (acc.1 ++ [(pyGet doubled (index : ℤ),
                pyGet doubled ((index : ℤ) + halfLength))],
     evs ++ [Event.symmetry index (pyGet doubled (index : ℤ))
               (pyGet doubled ((index : ℤ) + halfLength))])
  else (acc.1, evs)

/-- `Symmetry.get_lines_of_symmetry`, returning both the symmetry list and
the trace of observer notifications: double the points, iterate the candidate
loop over `range(half_length)`. -/
noncomputable def detect (points : List Point) :
    List (Point × Point) × List Event :=
  let doubled := doublePoints points
  let halfLength := doubled.length / 2
  (List.range halfLength).foldl (detectStep doubled halfLength) ([], [])

/-- The return value of `Symmetry.get_lines_of_symmetry`. -/
noncomputable def getLinesOfSymmetry (points : List Point) :
    List (Point × Point) :=
  (detect points).1

/-- `half_length` as computed by the detector for a given input. -/
noncomputable def halfLen (pts : List Point) : ℕ :=
  (doublePoints pts).length / 2

/-- The axis recorded for a passing candidate: the pair
`(points[index], points[opposite_index])` of the untransformed doubled
list. -/
noncomputable def axisOf (doubled : List Point) (halfLength index : ℕ) :
    Point × Point :=
  (pyGet doubled (index : ℤ), pyGet doubled ((index : ℤ) + halfLength))

/-- The verdict of the mirror check for one candidate. -/
noncomputable def candidatePasses (doubled : List Point)
    (halfLength index : ℕ) : Prop :=
  symmetricalCheck (workRotated doubled halfLength index) halfLength index

open Classical in
/-- The observer notifications emitted for one candidate. -/
noncomputable def candidateEvents (doubled : List Point)
    (halfLength index : ℕ) : List Event :=
  [Event.original index doubled,
   Event.translate index (workTranslated doubled index),
   Event.rotate index (workRotated doubled halfLength index)] ++
  (if candidatePasses doubled halfLength index then
    [Event.symmetry index (pyGet doubled (index : ℤ))
      (pyGet doubled ((index : ℤ) + halfLength))]
  else [])

/-- Discriminator for `symmetry` events of the trace. -/
def isSymmetryEvent : Event → Bool
  | Event.symmetry _ _ _ => true
  | _ => false

/-- A rigid motion of the plane (spec, §8: "translating and rotating the
entire input polygon rigidly"): rotation by `θ` followed by translation by
`t`. -/
noncomputable def rigidMap (θ : ℝ) (t : Point) (p : Point) : Point :=
  ⟨Real.cos θ * p.x - Real.sin θ * p.y + t.x,
   Real.sin θ * p.x + Real.cos θ * p.y + t.y⟩

/-- The square test fixture of spec §8 (also `ShapeCanvas.SHAPES["Square"]`
in main.py). -/
noncomputable def squarePts : List Point :=
  [⟨0, 0⟩, ⟨0, 100⟩, ⟨100, 100⟩, ⟨100, 0⟩]

/-! ### The fallible model

The same algorithm with every Python list subscript routed through `pyGet?`,
so that a result of `none` models an uncaught `IndexError`.  Proving it equal
to `some (detect points)` shows the source performs no out-of-bounds access
and always returns normally. -/

/-- `_double_points`, fallible: the `points[0]` read for the wrap-around
midpoint goes through `pyGet?` (it is only reached when the loop ran, i.e.
`previous_point` is not `None`). -/
noncomputable def doubleAuxChecked (prev : Point) (rest : List Point)
    (points : List Point) : Option (List Point) :=
  match rest with
  | [] => do
    let first ← pyGet? points 0
    pure [getMidpoint prev first]
  | p :: rest' => do
    let l ← doubleAuxChecked p rest' points
    pure (getMidpoint prev p :: p :: l)

/-- `_double_points`, fallible. -/
noncomputable def doublePointsChecked (points : List Point) :
    Option (List Point) :=
  match points with
  | [] => pure []
  | p0 :: rest => do
    let l ← doubleAuxChecked p0 rest (p0 :: rest)
    pure (p0 :: l)

open Classical in
/-- One candidate-loop iteration, fallible: `points_copy[index]` is read
before the translation for the translation offsets, re-read afterwards (the
Python `pf` object is mutated in place by the translation), and
`points_copy[opposite_index]`, the two mirror accesses and the two final
axis reads all go through `pyGet?`. -/
noncomputable def detectStepChecked (doubled : List Point) (halfLength : ℕ)
    (acc : List (Point × Point) × List Event) (index : ℕ) :
    Option (List (Point × Point) × List Event) := do
  let pf0 ← pyGet? doubled (index : ℤ)
  let tr := translateShape doubled pf0.x pf0.y
  let pf ← pyGet? tr (index : ℤ)
  let po ← pyGet? tr ((index : ℤ) + halfLength)
  let rot := tr.map (fun p => rotatePoint p (getAngle pf po))
  let evs := acc.2 ++
    [Event.original index doubled, Event.translate index tr,
     Event.rotate index rot]
  let sym ← (List.range halfLength).foldlM
    (fun (s : Prop) (m : ℕ) => do
      let m1 ← pyGet? rot ((index : ℤ) - m)
      let m2 ← pyGet? rot ((index : ℤ) + m)
      pure (s ∧ pointsReallyClose ⟨m1.x, |m1.y|⟩ ⟨m2.x, |m2.y|⟩))
    True
  if sym then do
    let a1 ← pyGet? doubled (index : ℤ)
    let a2 ← pyGet? doubled ((index : ℤ) + halfLength)
    pure (acc.1 ++ [(a1, a2)], evs ++ [Event.symmetry index a1 a2])
  else
    pure (acc.1, evs)

/-- `get_lines_of_symmetry`, fallible. -/
noncomputable def detectChecked (points : List Point) :
    Option (List (Point × Point) × List Event) := do
  let doubled ← doublePointsChecked points
  let halfLength := doubled.length / 2
  (List.range halfLength).foldlM (detectStepChecked doubled halfLength)
    ([], [])

/-! ### The heap model

To state that `get_lines_of_symmetry` never mutates the caller's `Point`
objects, the mutable heap is made explicit: a store of point values indexed
by addresses; Python lists of points become lists of addresses; `deepcopy`
allocates; `_translate_shape` and the rotation loop write through addresses
of the working copy only. -/

/-- The mutable heap: `Point` object number `a` holds `s.getD a default`.
Allocation appends. -/
abbrev Store := List Point

/-- Dereference an address. -/
def readP (s : Store) (a : ℕ) : Point := s.getD a default

/-- Overwrite the point object at an address (`p.x = ...; p.y = ...`). -/
def writeP (s : Store) (a : ℕ) (p : Point) : Store := s.set a p

/-- Allocate a fresh `Point` object. -/
def alloc (s : Store) (p : Point) : Store × ℕ := (s ++ [p], s.length)

/-- Python list subscript at address level (wrap-around as in `pyGet`;
address 0 as an arbitrary default, unreachable on the detector's inputs). -/
def pyGetA (l : List ℕ) (i : ℤ) : ℕ :=
  if 0 ≤ i then l.getD i.toNat 0
  else if 0 ≤ (l.length : ℤ) + i then l.getD ((l.length : ℤ) + i).toNat 0
  else 0

/-- `_get_midpoint` allocates a fresh `Point`; `_double_points` interleaves
the original addresses with freshly allocated midpoints (heap version of
`doubleAux`). -/
noncomputable def doubleAuxH (s : Store) (prev : ℕ) (rest : List ℕ)
    (first : ℕ) : Store × List ℕ :=
  match rest with
  | [] =>
    let r := alloc s (getMidpoint (readP s prev) (readP s first))
    (r.1, [r.2])
  | a :: rest' =>
    let r := alloc s (getMidpoint (readP s prev) (readP s a))
    let rec' := doubleAuxH r.1 a rest' first
    (rec'.1, r.2 :: a :: rec'.2)

/-- `_double_points`, heap version: even slots are the caller's own point
objects (shared addresses), odd slots are freshly allocated midpoints. -/
noncomputable def doublePointsH (s : Store) (pts : List ℕ) :
    Store × List ℕ :=
  match pts with
  | [] => (s, [])
  | a0 :: rest =>
    let r := doubleAuxH s a0 rest a0
    (r.1, a0 :: r.2)

/-- One step of `deepcopy(points)`: allocate a fresh object with the same
coordinates as the object at address `a`. -/
def deepcopyStep (acc : Store × List ℕ) (a : ℕ) : Store × List ℕ :=
  let r := alloc acc.1 (readP acc.1 a)
  (r.1, acc.2 ++ [r.2])

/-- `deepcopy(points)`: allocate a fresh object with the same coordinates for
every list entry. -/
def deepcopyH (s : Store) (l : List ℕ) : Store × List ℕ :=
  l.foldl deepcopyStep (s, [])

/-- `_translate_shape`, heap version: writes every object of the list in
place. -/
def translateShapeH (s : Store) (l : List ℕ) (dx dy : ℝ) : Store :=
  l.foldl
    (fun s' a =>
      let p := readP s' a
      writeP s' a ⟨p.x - dx, p.y - dy⟩)
    s

/-- The `for p in points_copy: self._rotate_point(p, angle)` loop, heap
version. -/
noncomputable def rotateShapeH (s : Store) (l : List ℕ) (angle : ℝ) :
    Store :=
  l.foldl (fun s' a => writeP s' a (rotatePoint (readP s' a) angle)) s

/-- The mirror check, heap version (reads only). -/
noncomputable def symmetricalCheckH (s : Store) (copy : List ℕ)
    (halfLength index : ℕ) : Prop :=
  (List.range halfLength).foldl
    (fun acc m =>
      let m1 := readP s (pyGetA copy ((index : ℤ) - m))
      let m2 := readP s (pyGetA copy ((index : ℤ) + m))
      acc ∧ pointsReallyClose ⟨m1.x, |m1.y|⟩ ⟨m2.x, |m2.y|⟩)
    True

open Classical in
/-- One candidate-loop iteration, heap version: deep-copy the doubled list,
translate the copy in place so the pivot object lands at the origin, rotate
the copy in place, run the mirror check, and record the addresses of the
(untransformed) doubled list's pivot and opposite objects on success. -/
noncomputable def detectStepH (doubled : List ℕ) (halfLength : ℕ)
    (acc : Store × List (ℕ × ℕ)) (index : ℕ) : Store × List (ℕ × ℕ) :=
  let c := deepcopyH acc.1 doubled
  let pfA := pyGetA c.2 (index : ℤ)
  let pf0 := readP c.1 pfA
  let s1 := translateShapeH c.1 c.2 pf0.x pf0.y
  let poA := pyGetA c.2 ((index : ℤ) + halfLength)
  let pf := readP s1 pfA
  let po := readP s1 poA
  let angle := getAngle pf po
  let s2 := rotateShapeH s1 c.2 angle
  (s2,
   if symmetricalCheckH s2 c.2 halfLength index then
     acc.2 ++ [(pyGetA doubled (index : ℤ),
                pyGetA doubled ((index : ℤ) + halfLength))]
   else acc.2)

/-- `get_lines_of_symmetry`, heap version. -/
noncomputable def detectH (s : Store) (pts : List ℕ) :
    Store × List (ℕ × ℕ) :=
  let d := doublePointsH s pts
  let halfLength := d.2.length / 2
  (List.range halfLength).foldl (detectStepH d.2 halfLength) (d.1, [])

/-! ### Structure of the doubled point list -/

theorem doubleAux_length (prev : Point) (rest : List Point) (first : Point) :
    (doubleAux prev rest first).length = 2 * rest.length + 1 := by
  induction rest generalizing prev with
  | nil => simp [doubleAux]
  | cons p rest' ih =>
    simp only [doubleAux, List.length_cons, ih]
    ring

theorem doublePoints_length (pts : List Point) :
    (doublePoints pts).length = 2 * pts.length := by
  cases pts with
  | nil => simp [doublePoints]
  | cons p0 rest =>
    simp only [doublePoints, List.length_cons, doubleAux_length]
    ring

theorem doubleAux_getElem_odd (prev : Point) (rest : List Point) (first : Point)
    (k : ℕ) : (doubleAux prev rest first)[2 * k + 1]? = rest[k]? := by
  induction rest generalizing prev k with
  | nil =>
    have h1 : (1 : ℕ) ≤ 2 * k + 1 := by omega
    simp [doubleAux, List.getElem?_eq_none, h1]
  | cons p rest' ih =>
    cases k with
    | zero => simp [doubleAux]
    | succ k' =>
      have h2 : 2 * (k' + 1) + 1 = (2 * k' + 1) + 1 + 1 := by ring
      rw [h2]
      simp only [doubleAux, List.getElem?_cons_succ]
      exact ih p k'

theorem doubleAux_getElem_even (prev : Point) (rest : List Point)
    (first : Point) (k : ℕ) (hk : k ≤ rest.length) :
    (doubleAux prev rest first)[2 * k]? =
      some (getMidpoint ((prev :: rest).getD k default)
        ((rest ++ [first]).getD k default)) := by
  induction rest generalizing prev k with
  | nil =>
    have hk0 : k = 0 := by simpa using hk
    subst hk0
    simp [doubleAux]
  | cons p rest' ih =>
    cases k with
    | zero => simp [doubleAux]
    | succ k' =>
      have h2 : 2 * (k' + 1) = (2 * k') + 1 + 1 := by ring
      rw [h2]
      simp only [doubleAux, List.getElem?_cons_succ]
      have hk' : k' ≤ rest'.length := by
        have := hk
        simp only [List.length_cons] at this
        omega
      rw [ih p k' hk']
      simp

theorem doublePoints_getElem_even (pts : List Point) (i : ℕ) :
    (doublePoints pts)[2 * i]? = pts[i]? := by
  cases pts with
  | nil => simp [doublePoints]
  | cons p0 rest =>
    cases i with
    | zero => simp [doublePoints]
    | succ i' =>
      have h2 : 2 * (i' + 1) = (2 * i' + 1) + 1 := by ring
      rw [h2]
      simp only [doublePoints, List.getElem?_cons_succ]
      rw [doubleAux_getElem_odd]

theorem doublePoints_getElem_odd (pts : List Point) (i : ℕ)
    (hi : i < pts.length) :
    (doublePoints pts)[2 * i + 1]? =
      some (getMidpoint (pts.getD i default)
        (pts.getD ((i + 1) % pts.length) default)) := by
  cases pts with
  | nil => simp at hi
  | cons p0 rest =>
    have hi' : i ≤ rest.length := by
      have := hi
      simp only [List.length_cons] at this
      omega
    simp only [doublePoints, List.getElem?_cons_succ]
    rw [doubleAux_getElem_even p0 rest p0 i hi']
    congr 2
    rcases Nat.lt_or_ge i rest.length with h | h
    · have hmod : (i + 1) % (p0 :: rest).length = i + 1 := by
        apply Nat.mod_eq_of_lt
        simp
        omega
      rw [hmod]
      simp only [List.getD_eq_getElem?_getD]
      rw [List.getElem?_append_left h]
      simp
    · have heq : i = rest.length := le_antisymm hi' h
      subst heq
      have hmod : (rest.length + 1) % (p0 :: rest).length = 0 := by
        simp [Nat.mod_self]
      rw [hmod]
      simp only [List.getD_eq_getElem?_getD]
      rw [List.getElem?_append_right le_rfl]
      simp

/-- C3: the doubling step of `_double_points` produces a list of length
exactly `2 n`; every even index `2 i` holds original vertex `i` in original
order, and every odd index `2 i + 1` holds the midpoint of vertex `i` and the
next vertex (wrapping from the last vertex back to vertex `0`). -/
theorem double_points_spec (pts : List Point) :
    (doublePoints pts).length = 2 * pts.length ∧
    (∀ i : ℕ, (doublePoints pts)[2 * i]? = pts[i]?) ∧
    (∀ i : ℕ, i < pts.length →
      (doublePoints pts)[2 * i + 1]? =
        some (getMidpoint (pts.getD i default)
          (pts.getD ((i + 1) % pts.length) default))) :=
  ⟨doublePoints_length pts, doublePoints_getElem_even pts,
   doublePoints_getElem_odd pts⟩

/-- Witness for C3 on the concrete two-point polygon `[(0,0), (2,0)]`: the
doubled list has length 4, even entries are the original vertices, and entry
3 is the wrap-around midpoint of vertex 1 and vertex 0. -/
theorem double_points_spec_witness :
    (doublePoints [Point.mk 0 0, Point.mk 2 0]).length =
        2 * [Point.mk 0 0, Point.mk 2 0].length ∧
    (doublePoints [Point.mk 0 0, Point.mk 2 0])[2 * 1]? =
        [Point.mk 0 0, Point.mk 2 0][1]? ∧
    (1 : ℕ) < [Point.mk 0 0, Point.mk 2 0].length ∧
    (doublePoints [Point.mk 0 0, Point.mk 2 0])[2 * 1 + 1]? =
      some (getMidpoint ([Point.mk 0 0, Point.mk 2 0].getD 1 default)
        ([Point.mk 0 0, Point.mk 2 0].getD
          ((1 + 1) % [Point.mk 0 0, Point.mk 2 0].length) default)) := by
  refine ⟨(double_points_spec _).1, (double_points_spec _).2.1 1, by norm_num,
    (double_points_spec _).2.2 1 (by norm_num)⟩

/-! ### Python indexing lemmas -/

theorem pyGet?_isSome (l : List Point) (i : ℤ) (h1 : -(l.length : ℤ) ≤ i)
    (h2 : i < l.length) : (pyGet? l i).isSome = true := by
  unfold pyGet?
  split
  · next h0 =>
    have hlt : i.toNat < l.length := by omega
    simp [List.getElem?_eq_getElem hlt]
  · next h0 =>
    have h3 : 0 ≤ (l.length : ℤ) + i := by omega
    rw [if_pos h3]
    have hlt : ((l.length : ℤ) + i).toNat < l.length := by omega
    simp [List.getElem?_eq_getElem hlt]

theorem pyGet?_eq_some_pyGet (l : List Point) (i : ℤ)
    (h1 : -(l.length : ℤ) ≤ i) (h2 : i < l.length) :
    pyGet? l i = some (pyGet l i) := by
  have h := pyGet?_isSome l i h1 h2
  unfold pyGet
  cases ho : pyGet? l i with
  | none => rw [ho] at h; simp at h
  | some p => simp

theorem pyGet_nonneg (l : List Point) (i : ℤ) (h : 0 ≤ i) :
    pyGet l i = l.getD i.toNat default := by
  unfold pyGet pyGet?
  rw [if_pos h]
  simp

theorem pyGet_natCast (l : List Point) (a : ℕ) :
    pyGet l (a : ℤ) = l.getD a default := by
  rw [pyGet_nonneg l _ (by positivity)]
  simp

theorem pyGet_eq_emod (l : List Point) (i : ℤ) (h1 : -(l.length : ℤ) ≤ i)
    (h2 : i < l.length) :
    pyGet l i = l.getD ((i % (l.length : ℤ)).toNat) default := by
  rcases le_or_lt 0 i with h0 | h0
  · rw [Int.emod_eq_of_lt h0 h2, pyGet_nonneg l i h0]
  · have hmod : i % (l.length : ℤ) = i + l.length := by
      have h4 : (i + (l.length : ℤ)) % (l.length : ℤ) = i % (l.length : ℤ) := by
        simp
      rw [← h4]
      exact Int.emod_eq_of_lt (by omega) (by omega)
    rw [hmod]
    unfold pyGet pyGet?
    rw [if_neg (by omega), if_pos (by omega)]
    have hc : ((l.length : ℤ) + i).toNat = (i + (l.length : ℤ)).toNat := by
      omega
    rw [hc]
    simp


theorem pyGet_map (f : Point → Point) (l : List Point) (i : ℤ)
    (h1 : -(l.length : ℤ) ≤ i) (h2 : i < l.length) :
    pyGet (l.map f) i = f (pyGet l i) := by
  unfold pyGet pyGet?
  simp only [List.length_map]
  rcases le_or_lt 0 i with h0 | h0
  · have hlt : i.toNat < l.length := by omega
    rw [if_pos h0, if_pos h0]
    simp [List.getElem?_map, List.getElem?_eq_getElem hlt]
  · have hneg : ¬ (0 ≤ i) := not_le.mpr h0
    have hpos : 0 ≤ (l.length : ℤ) + i := by omega
    have hlt : ((l.length : ℤ) + i).toNat < l.length := by omega
    rw [if_neg hneg, if_neg hneg, if_pos hpos, if_pos hpos]
    simp [List.getElem?_map, List.getElem?_eq_getElem hlt]

/-! ### The mirror-check loop -/

theorem foldl_and_iff (c : ℕ → Prop) (l : List ℕ) (b : Prop) :
    l.foldl (fun s m => s ∧ c m) b ↔ (b ∧ ∀ m ∈ l, c m) := by
  induction l generalizing b with
  | nil => simp
  | cons a l ih =>
    rw [List.foldl_cons, ih]
    simp only [List.mem_cons]
    constructor
    · rintro ⟨⟨hb, ha⟩, hl⟩
      exact ⟨hb, fun m hm => by rcases hm with rfl | hm; exacts [ha, hl m hm]⟩
    · rintro ⟨hb, hl⟩
      exact ⟨⟨hb, hl a (Or.inl rfl)⟩, fun m hm => hl m (Or.inr hm)⟩

theorem symmetricalCheck_iff (work : List Point) (halfLength index : ℕ) :
    symmetricalCheck work halfLength index ↔
      ∀ m < halfLength, mirrorClose work index m := by
  unfold symmetricalCheck
  rw [foldl_and_iff]
  simp only [List.mem_range, true_and]

/-- C4: for a candidate `index` and every `0 ≤ mirror_index < half_length`,
the mirror loop compares `work[index - mirror_index]` — whose negative index
wraps to `work[(index - mirror_index) mod length]` and never raises
`IndexError` (`pyGet?` returns `some`) — against the in-range
`work[index + mirror_index]`, through the `(x, |y|)` projections of the two
points; the `symmetrical` verdict of the full loop (which never exits early:
it is a fold over all of `range(half_length)`) holds iff every one of these
pair comparisons succeeds. -/
theorem mirror_check_spec (work : List Point) (halfLength index m : ℕ)
    (hlen : work.length = 2 * halfLength) (hi : index < halfLength)
    (hm : m < halfLength) :
    (symmetricalCheck work halfLength index ↔
      ∀ m' < halfLength, mirrorClose work index m') ∧
    pyGet? work ((index : ℤ) - m) =
      some (work.getD ((((index : ℤ) - m) % (work.length : ℤ)).toNat)
        default) ∧
    pyGet? work ((index : ℤ) + m) = some (work.getD (index + m) default) ∧
    (mirrorClose work index m ↔
      pointsReallyClose
        ⟨(pyGet work ((index : ℤ) - m)).x, |(pyGet work ((index : ℤ) - m)).y|⟩
        ⟨(pyGet work ((index : ℤ) + m)).x,
         |(pyGet work ((index : ℤ) + m)).y|⟩) := by
  have hb1 : -((work.length : ℤ)) ≤ (index : ℤ) - m := by omega
  have hb2 : (index : ℤ) - m < work.length := by omega
  have hb3 : -((work.length : ℤ)) ≤ (index : ℤ) + m := by omega
  have hb4 : (index : ℤ) + m < work.length := by omega
  refine ⟨symmetricalCheck_iff work halfLength index, ?_, ?_, Iff.rfl⟩
  · rw [pyGet?_eq_some_pyGet work _ hb1 hb2, pyGet_eq_emod work _ hb1 hb2]
  · rw [pyGet?_eq_some_pyGet work _ hb3 hb4, pyGet_nonneg work _ (by omega)]
    have hco : ((index : ℤ) + m).toNat = index + m := by omega
    rw [hco]

/-- Witness for C4 on a concrete 4-point working list with
`half_length = 2`, `index = 0`, `mirror_index = 1`: the negative access
`work[0 - 1]` resolves without error to index `(0 - 1) mod 4 = 3`. -/
theorem mirror_check_spec_witness :
    (([Point.mk 0 0, Point.mk 1 0, Point.mk 2 0, Point.mk 3 0] :
        List Point).length = 2 * 2 ∧ (0 : ℕ) < 2 ∧ (1 : ℕ) < 2) ∧
    pyGet? [Point.mk 0 0, Point.mk 1 0, Point.mk 2 0, Point.mk 3 0]
        ((0 : ℕ) - ((1 : ℕ) : ℤ)) =
      some ([Point.mk 0 0, Point.mk 1 0, Point.mk 2 0, Point.mk 3 0].getD
        (((((0 : ℕ) : ℤ) - (1 : ℕ)) %
          (([Point.mk 0 0, Point.mk 1 0, Point.mk 2 0,
             Point.mk 3 0] : List Point).length : ℤ)).toNat) default) := by
  refine ⟨⟨by norm_num, by norm_num, by norm_num⟩, ?_⟩
  exact (mirror_check_spec _ 2 0 1 (by norm_num) (by norm_num)
    (by norm_num)).2.1

/-! ### The tolerance test -/

/-- C5: two points match iff their Euclidean distance is strictly below the
tolerance `CLOSE_ENOUGH = 5`; at distance exactly `5` or at `5.01` they do
not match, and at `4.99` they do. -/
theorem tolerance_spec :
    (∀ p1 p2 : Point, pointsReallyClose p1 p2 ↔ getDistance p1 p2 < 5) ∧
    pointsReallyClose ⟨0, 0⟩ ⟨0, 4.99⟩ ∧
    ¬ pointsReallyClose ⟨0, 0⟩ ⟨0, 5⟩ ∧
    ¬ pointsReallyClose ⟨0, 0⟩ ⟨0, 5.01⟩ := by
  have hdist : ∀ y : ℝ, getDistance ⟨0, 0⟩ ⟨0, y⟩ = Real.sqrt (y ^ 2) := by
    intro y
    unfold getDistance
    norm_num
  refine ⟨fun p1 p2 => Iff.rfl, ?_, ?_, ?_⟩
  · unfold pointsReallyClose CLOSE_ENOUGH
    rw [hdist, Real.sqrt_lt' (by norm_num)]
    norm_num
  · unfold pointsReallyClose CLOSE_ENOUGH
    rw [hdist, Real.sqrt_lt' (by norm_num)]
    norm_num
  · unfold pointsReallyClose CLOSE_ENOUGH
    rw [hdist, Real.sqrt_lt' (by norm_num)]
    norm_num

/-! ### Characterization of the candidate loop -/

theorem halfLen_eq (pts : List Point) : halfLen pts = pts.length := by
  unfold halfLen
  rw [doublePoints_length]
  omega

theorem detectStep_pos (doubled : List Point) (halfLength : ℕ)
    (acc : List (Point × Point) × List Event) (index : ℕ)
    (hp : candidatePasses doubled halfLength index) :
    detectStep doubled halfLength acc index =
      (acc.1 ++ [axisOf doubled halfLength index],
       acc.2 ++ candidateEvents doubled halfLength index) := by
  unfold detectStep
  dsimp only
  rw [if_pos (show symmetricalCheck (workRotated doubled halfLength index)
    halfLength index from hp)]
  unfold candidateEvents axisOf
  rw [if_pos hp]
  simp

theorem detectStep_neg (doubled : List Point) (halfLength : ℕ)
    (acc : List (Point × Point) × List Event) (index : ℕ)
    (hp : ¬ candidatePasses doubled halfLength index) :
    detectStep doubled halfLength acc index =
      (acc.1, acc.2 ++ candidateEvents doubled halfLength index) := by
  unfold detectStep
  dsimp only
  rw [if_neg (show ¬ symmetricalCheck (workRotated doubled halfLength index)
    halfLength index from hp)]
  unfold candidateEvents
  rw [if_neg hp]
  simp

open Classical in
theorem detect_foldl (doubled : List Point) (halfLength : ℕ) (L : List ℕ)
    (acc : List (Point × Point) × List Event) :
    L.foldl (detectStep doubled halfLength) acc =
      (acc.1 ++
        (L.filter (fun i => candidatePasses doubled halfLength i)).map
          (axisOf doubled halfLength),
       acc.2 ++ L.flatMap (candidateEvents doubled halfLength)) := by
  induction L generalizing acc with
  | nil => simp
  | cons a L ih =>
    rw [List.foldl_cons]
    by_cases hp : candidatePasses doubled halfLength a
    · rw [detectStep_pos doubled halfLength acc a hp, ih]
      simp [List.filter_cons, hp]
    · rw [detectStep_neg doubled halfLength acc a hp, ih]
      simp [List.filter_cons, hp]

open Classical in
/-- The detector's loop, restated: the axis list is the in-order list of
passing candidates' axes and the trace is one candidate-event block per
index. -/
theorem detect_eq (pts : List Point) :
    detect pts =
      (((List.range (halfLen pts)).filter
          (fun i => candidatePasses (doublePoints pts) (halfLen pts) i)).map
        (axisOf (doublePoints pts) (halfLen pts)),
       (List.range (halfLen pts)).flatMap
        (candidateEvents (doublePoints pts) (halfLen pts))) := by
  unfold detect halfLen
  rw [detect_foldl]
  simp

open Classical in
theorem filter_candidateEvents (doubled : List Point) (halfLength i : ℕ) :
    (candidateEvents doubled halfLength i).filter isSymmetryEvent =
      if candidatePasses doubled halfLength i then
        [Event.symmetry i (pyGet doubled (i : ℤ))
          (pyGet doubled ((i : ℤ) + halfLength))]
      else [] := by
  unfold candidateEvents
  by_cases hp : candidatePasses doubled halfLength i
  · rw [if_pos hp]
    simp [isSymmetryEvent, List.filter_append]
  · rw [if_neg hp]
    simp [isSymmetryEvent, List.filter_append]

theorem filter_isSymmetryEvent_block (doubled : List Point)
    (halfLength i : ℕ) (tail : List Event) :
    ([Event.original i doubled,
      Event.translate i (workTranslated doubled i),
      Event.rotate i (workRotated doubled halfLength i)] ++ tail).filter
        isSymmetryEvent = tail.filter isSymmetryEvent := by
  simp [isSymmetryEvent, List.filter_append]

open Classical in
theorem flatMap_ite_singleton {α : Type} (L : List ℕ) (p : ℕ → Prop)
    (f : ℕ → α) :
    (L.flatMap fun i => if p i then [f i] else []) =
      (L.filter fun i => p i).map f := by
  induction L with
  | nil => simp
  | cons a L ih =>
    by_cases hp : p a
    · simp [hp, ih]
    · simp [hp, ih]

open Classical in
/-- C6: the axis list returned by `get_lines_of_symmetry` is exactly the list
of `axisOf` pairs — each read with `pyGet` from the ORIGINAL untransformed
doubled list, not from the working copy — of the candidates whose mirror
check passes, listed for ascending candidate index (the passing indices form
a `Pairwise (· < ·)` filter of `range half_length`); and the `symmetry`
events of the trace are exactly one event per passing candidate carrying the
same two points, so the callback fires exactly once per confirmed candidate. -/
theorem axis_recording_spec (pts : List Point) :
    getLinesOfSymmetry pts =
      ((List.range (halfLen pts)).filter
        (fun i => candidatePasses (doublePoints pts) (halfLen pts) i)).map
        (axisOf (doublePoints pts) (halfLen pts)) ∧
    (∀ i : ℕ, axisOf (doublePoints pts) (halfLen pts) i =
      (pyGet (doublePoints pts) (i : ℤ),
       pyGet (doublePoints pts) ((i : ℤ) + halfLen pts))) ∧
    (detect pts).2.filter isSymmetryEvent =
      ((List.range (halfLen pts)).filter
        (fun i => candidatePasses (doublePoints pts) (halfLen pts) i)).map
        (fun i => Event.symmetry i (pyGet (doublePoints pts) (i : ℤ))
          (pyGet (doublePoints pts) ((i : ℤ) + halfLen pts))) ∧
    List.Pairwise (· < ·)
      ((List.range (halfLen pts)).filter
        (fun i => candidatePasses (doublePoints pts) (halfLen pts) i)) := by
  have hd := detect_eq pts
  refine ⟨?_, fun i => rfl, ?_, ?_⟩
  · unfold getLinesOfSymmetry
    rw [hd]
  · rw [hd]
    show ((List.range (halfLen pts)).flatMap
        (candidateEvents (doublePoints pts) (halfLen pts))).filter
        isSymmetryEvent = _
    rw [List.filter_flatMap]
    simp only [filter_candidateEvents]
    rw [flatMap_ite_singleton]
  · exact (List.pairwise_lt_range _).filter _

/-! ### Totality: the fallible model never fails -/

theorem doubleAuxChecked_eq (rest : List Point) : ∀ (prev p0 : Point)
    (rest0 : List Point),
    doubleAuxChecked prev rest (p0 :: rest0) = some (doubleAux prev rest p0) := by
  induction rest with
  | nil =>
    intro prev p0 rest0
    have h0 : pyGet? (p0 :: rest0) 0 = some p0 := by
      unfold pyGet?
      rw [if_pos le_rfl]
      simp
    unfold doubleAuxChecked
    rw [h0]
    rfl
  | cons p rest' ih =>
    intro prev p0 rest0
    unfold doubleAuxChecked
    rw [ih p p0 rest0]
    rfl

theorem doublePointsChecked_eq (pts : List Point) :
    doublePointsChecked pts = some (doublePoints pts) := by
  cases pts with
  | nil => rfl
  | cons p0 rest =>
    show (doubleAuxChecked p0 rest (p0 :: rest)).bind
      (fun l => pure (p0 :: l)) = _
    rw [doubleAuxChecked_eq rest p0 p0 rest]
    rfl

theorem mirror_foldlM (rot : List Point) (halfLength index : ℕ)
    (hlen : rot.length = 2 * halfLength) (hi : index < halfLength)
    (L : List ℕ) (hL : ∀ m ∈ L, m < halfLength) : ∀ (b : Prop),
    (L.foldlM
      (fun (s : Prop) (m : ℕ) => do
        let m1 ← pyGet? rot ((index : ℤ) - m)
        let m2 ← pyGet? rot ((index : ℤ) + m)
        pure (s ∧ pointsReallyClose ⟨m1.x, |m1.y|⟩ ⟨m2.x, |m2.y|⟩))
      b : Option Prop) =
      some (L.foldl (fun s m => s ∧ mirrorClose rot index m) b) := by
  induction L with
  | nil => intro b; simp
  | cons a L ih =>
    intro b
    have ha : a < halfLength := hL a (by simp)
    have h1 : pyGet? rot ((index : ℤ) - a) =
        some (pyGet rot ((index : ℤ) - a)) :=
      pyGet?_eq_some_pyGet _ _ (by omega) (by omega)
    have h2 : pyGet? rot ((index : ℤ) + a) =
        some (pyGet rot ((index : ℤ) + a)) :=
      pyGet?_eq_some_pyGet _ _ (by omega) (by omega)
    rw [List.foldlM_cons]
    simp only [h1, h2, Option.bind_eq_bind, Option.some_bind]
    exact ih (fun m hm => hL m (by simp [hm])) _

theorem detectStepChecked_eq (doubled : List Point) (halfLength : ℕ)
    (acc : List (Point × Point) × List Event) (index : ℕ)
    (hlen : doubled.length = 2 * halfLength) (hi : index < halfLength) :
    detectStepChecked doubled halfLength acc index =
      some (detectStep doubled halfLength acc index) := by
  have h0 : pyGet? doubled (index : ℤ) = some (pyGet doubled (index : ℤ)) :=
    pyGet?_eq_some_pyGet _ _ (by omega) (by omega)
  have hA : pyGet? doubled ((index : ℤ) + halfLength) =
      some (pyGet doubled ((index : ℤ) + halfLength)) :=
    pyGet?_eq_some_pyGet _ _ (by omega) (by omega)
  unfold detectStepChecked
  simp only [h0, Option.bind_eq_bind, Option.some_bind]
  set T := translateShape doubled (pyGet doubled (index : ℤ)).x
    (pyGet doubled (index : ℤ)).y with hT
  have hTlen : T.length = doubled.length := by
    simp [hT, translateShape]
  have h1 : pyGet? T (index : ℤ) = some (pyGet T (index : ℤ)) :=
    pyGet?_eq_some_pyGet _ _ (by rw [hTlen]; omega) (by rw [hTlen]; omega)
  have h2 : pyGet? T ((index : ℤ) + halfLength) =
      some (pyGet T ((index : ℤ) + halfLength)) :=
    pyGet?_eq_some_pyGet _ _ (by rw [hTlen]; omega) (by rw [hTlen]; omega)
  simp only [h1, h2, Option.some_bind]
  set R := T.map (fun p => rotatePoint p
    (getAngle (pyGet T (index : ℤ)) (pyGet T ((index : ℤ) + halfLength))))
    with hR
  have hRlen : R.length = 2 * halfLength := by
    simp [hR, hTlen]
    omega
  have hm := mirror_foldlM R halfLength index hRlen hi
    (List.range halfLength) (fun m hm => List.mem_range.mp hm) True
  simp only [Option.bind_eq_bind] at hm
  rw [hm]
  simp only [hA, Option.some_bind]
  have hTw : workTranslated doubled index = T := rfl
  have hRw : workRotated doubled halfLength index = R := rfl
  by_cases hc : List.foldl (fun s m => s ∧ mirrorClose R index m) True
    (List.range halfLength)
  · have hp : candidatePasses doubled halfLength index := hc
    rw [if_pos hc, detectStep_pos doubled halfLength acc index hp]
    simp [candidateEvents, axisOf, hp, hTw, hRw, List.append_assoc]
  · have hp : ¬ candidatePasses doubled halfLength index := hc
    rw [if_neg hc, detectStep_neg doubled halfLength acc index hp]
    simp [candidateEvents, hp, hTw, hRw, List.append_assoc]

theorem foldlM_detectStepChecked (doubled : List Point) (halfLength : ℕ)
    (hlen : doubled.length = 2 * halfLength) (L : List ℕ)
    (hL : ∀ i ∈ L, i < halfLength) :
    ∀ (acc : List (Point × Point) × List Event),
    L.foldlM (detectStepChecked doubled halfLength) acc =
      some (L.foldl (detectStep doubled halfLength) acc) := by
  induction L with
  | nil => intro acc; simp
  | cons a L ih =>
    intro acc
    rw [List.foldlM_cons,
      detectStepChecked_eq doubled halfLength acc a hlen (hL a (by simp))]
    simp only [Option.bind_eq_bind, Option.some_bind]
    exact ih (fun i hi => hL i (by simp [hi])) _

/-- C10: the fallible model of `get_lines_of_symmetry` — every list subscript
routed through wrap-around indexing that fails like Python's `IndexError` on
out-of-range access, and `points[0]` in `_double_points` read only when the
list is non-empty — never fails: on every input (length 0 included) it
returns exactly the total model's result, so the source performs no
out-of-bounds access and always returns normally. -/
theorem detect_total (pts : List Point) :
    detectChecked pts = some (detect pts) := by
  unfold detectChecked
  rw [doublePointsChecked_eq]
  simp only [Option.bind_eq_bind, Option.some_bind]
  have hlen : (doublePoints pts).length =
      2 * ((doublePoints pts).length / 2) := by
    rw [doublePoints_length]
    omega
  rw [foldlM_detectStepChecked (doublePoints pts) _ hlen
    (List.range ((doublePoints pts).length / 2))
    (fun i hi => List.mem_range.mp hi) ([], [])]
  rfl

/-! ### Closed forms for the rotation step -/

theorem radians_neg_degrees (t : ℝ) : radians (-(degrees t)) = -t := by
  unfold radians degrees
  field_simp
  ring

theorem atan2_zero_zero : atan2 0 0 = 0 := by
  unfold atan2
  have h0 : (⟨0, 0⟩ : ℂ) = 0 := by
    rw [Complex.ext_iff]
    simp
  rw [h0, Complex.arg_zero]

/-- When the opposite point coincides with the pivot, `atan2(0, 0) = 0` and
the rotation is the identity. -/
theorem rotatePoint_getAngle_self (pf po p : Point) (hx : po.x - pf.x = 0)
    (hy : po.y - pf.y = 0) : rotatePoint p (getAngle pf po) = p := by
  unfold rotatePoint getAngle
  rw [hx, hy, atan2_zero_zero, radians_neg_degrees]
  ext <;> simp

/-- The net effect of `_get_angle` (degrees) followed by `_rotate_point`
(radians conversion and rotation): rotation by minus the argument of the
pivot-to-opposite direction, in closed form. -/
theorem rotatePoint_getAngle (pf po p : Point)
    (h : ¬(po.x - pf.x = 0 ∧ po.y - pf.y = 0)) :
    rotatePoint p (getAngle pf po) =
      ⟨(p.x * (po.x - pf.x) + p.y * (po.y - pf.y)) /
         Real.sqrt ((po.x - pf.x) ^ 2 + (po.y - pf.y) ^ 2),
       (p.y * (po.x - pf.x) - p.x * (po.y - pf.y)) /
         Real.sqrt ((po.x - pf.x) ^ 2 + (po.y - pf.y) ^ 2)⟩ := by
  have hz : (⟨po.x - pf.x, po.y - pf.y⟩ : ℂ) ≠ 0 := by
    intro hzz
    rw [Complex.ext_iff] at hzz
    simp only [Complex.zero_re, Complex.zero_im] at hzz
    exact h hzz
  have habs : Complex.abs ⟨po.x - pf.x, po.y - pf.y⟩ =
      Real.sqrt ((po.x - pf.x) ^ 2 + (po.y - pf.y) ^ 2) := by
    rw [Complex.abs_apply, Complex.normSq_mk]
    congr 1
    ring
  have hcos : Real.cos (atan2 (po.y - pf.y) (po.x - pf.x)) =
      (po.x - pf.x) / Real.sqrt ((po.x - pf.x) ^ 2 + (po.y - pf.y) ^ 2) := by
    unfold atan2
    rw [Complex.cos_arg hz, habs]
  have hsin : Real.sin (atan2 (po.y - pf.y) (po.x - pf.x)) =
      (po.y - pf.y) / Real.sqrt ((po.x - pf.x) ^ 2 + (po.y - pf.y) ^ 2) := by
    unfold atan2
    rw [Complex.sin_arg, habs]
  unfold rotatePoint getAngle
  rw [radians_neg_degrees]
  dsimp only
  rw [Real.cos_neg, Real.sin_neg, hcos, hsin]
  ext <;> dsimp <;> ring

/-- Points with equal `x` and equal `y` are really close (distance `0`). -/
theorem pointsReallyClose_of_eq (p q : Point) (hx : p.x = q.x)
    (hy : p.y = q.y) : pointsReallyClose p q := by
  unfold pointsReallyClose getDistance CLOSE_ENOUGH
  have h0 : (q.x - p.x) ^ 2 + (q.y - p.y) ^ 2 = 0 := by
    rw [hx, hy]
    ring
  rw [h0, Real.sqrt_zero]
  norm_num

/-! ### Degenerate inputs -/

/-- C1 (counterexample): on the empty polygon the detector does NOT fail
with any error — even in the fallible model it returns normally, with the
empty axis list and no observer notification. -/
theorem empty_input_no_error :
    detectChecked ([] : List Point) =
      some (([] : List (Point × Point)), ([] : List Event)) := rfl

/-- C1 (amended): on the empty polygon, `get_lines_of_symmetry` returns the
empty axis list without invoking any observer and without error (the
complete, not partial, result for that input). -/
theorem empty_input_graceful :
    detect ([] : List Point) = ([], []) ∧
    getLinesOfSymmetry ([] : List Point) = [] ∧
    detectChecked ([] : List Point) = some (detect ([] : List Point)) :=
  ⟨rfl, rfl, detect_total []⟩

/-- C2 (counterexample): a degenerate 1-point polygon does not produce an
empty axis list: its single candidate passes the mirror check (every
comparison is a point against itself), so exactly one axis is returned. -/
theorem degenerate_not_empty :
    (getLinesOfSymmetry [Point.mk 0 0]).length = 1 := by
  have hhalf : halfLen [Point.mk 0 0] = 1 := by
    rw [halfLen_eq]
    rfl
  have hp : candidatePasses (doublePoints [Point.mk 0 0])
      (halfLen [Point.mk 0 0]) 0 := by
    unfold candidatePasses
    rw [hhalf, symmetricalCheck_iff]
    intro m hm
    have hm0 : m = 0 := by omega
    subst hm0
    unfold mirrorClose
    apply pointsReallyClose_of_eq
    · have hc : ((0 : ℕ) : ℤ) - ((0 : ℕ) : ℤ) = ((0 : ℕ) : ℤ) + ((0 : ℕ) : ℤ) := by
        norm_num
      rw [hc]
    · have hc : ((0 : ℕ) : ℤ) - ((0 : ℕ) : ℤ) = ((0 : ℕ) : ℤ) + ((0 : ℕ) : ℤ) := by
        norm_num
      rw [hc]
  unfold getLinesOfSymmetry
  rw [detect_eq]
  rw [hhalf] at hp ⊢
  have hr : List.range 1 = [0] := rfl
  simp [hr, List.filter_cons, hp]

/-- C2 (amended): a degenerate polygon with 1 or 2 points is handled without
crashing — the fallible model returns normally with the total model's result
(though, per the recorded counterexample, that result need not be the empty
"no symmetry found" list). -/
theorem degenerate_no_error (pts : List Point)
    (_h : pts.length = 1 ∨ pts.length = 2) :
    detectChecked pts = some (detect pts) := detect_total pts

/-- Witness for the amended C2 at the concrete 1-point polygon. -/
theorem degenerate_no_error_witness :
    ([Point.mk 0 0].length = 1 ∨ [Point.mk 0 0].length = 2) ∧
    detectChecked [Point.mk 0 0] = some (detect [Point.mk 0 0]) :=
  ⟨Or.inl rfl, degenerate_no_error [Point.mk 0 0] (Or.inl rfl)⟩

/-! ### Frame property of the heap model -/

theorem take_writeP (s : Store) (a n : ℕ) (p : Point) (h : n ≤ a) :
    (writeP s a p).take n = s.take n := by
  apply List.ext_getElem?
  intro i
  by_cases hin : i < n
  · rw [List.getElem?_take_of_lt hin, List.getElem?_take_of_lt hin]
    exact List.getElem?_set_ne (by omega)
  · rw [List.getElem?_take_eq_none (by omega),
      List.getElem?_take_eq_none (by omega)]

theorem writeP_length (s : Store) (a : ℕ) (p : Point) :
    (writeP s a p).length = s.length := by
  simp [writeP]

theorem take_alloc (s : Store) (p : Point) (n : ℕ) (h : n ≤ s.length) :
    (alloc s p).1.take n = s.take n := by
  unfold alloc
  exact List.take_append_of_le_length h

theorem translateShapeH_length (l : List ℕ) (dx dy : ℝ) :
    ∀ s : Store, (translateShapeH s l dx dy).length = s.length := by
  unfold translateShapeH
  induction l with
  | nil => intro s; rfl
  | cons a l ih =>
    intro s
    rw [List.foldl_cons, ih]
    simp [writeP]

theorem take_translateShapeH (l : List ℕ) (dx dy : ℝ) (n : ℕ) :
    ∀ s : Store, (∀ a ∈ l, n ≤ a) →
    (translateShapeH s l dx dy).take n = s.take n := by
  unfold translateShapeH
  induction l with
  | nil => intro s _; rfl
  | cons a l ih =>
    intro s hl
    rw [List.foldl_cons, ih _ (fun b hb => hl b (by simp [hb]))]
    exact take_writeP s a n _ (hl a (by simp))

theorem rotateShapeH_length (l : List ℕ) (angle : ℝ) :
    ∀ s : Store, (rotateShapeH s l angle).length = s.length := by
  unfold rotateShapeH
  induction l with
  | nil => intro s; rfl
  | cons a l ih =>
    intro s
    rw [List.foldl_cons, ih]
    simp [writeP]

theorem take_rotateShapeH (l : List ℕ) (angle : ℝ) (n : ℕ) :
    ∀ s : Store, (∀ a ∈ l, n ≤ a) →
    (rotateShapeH s l angle).take n = s.take n := by
  unfold rotateShapeH
  induction l with
  | nil => intro s _; rfl
  | cons a l ih =>
    intro s hl
    rw [List.foldl_cons, ih _ (fun b hb => hl b (by simp [hb]))]
    exact take_writeP s a n _ (hl a (by simp))

theorem deepcopy_foldl_spec (l : List ℕ) :
    ∀ (acc : Store × List ℕ) (n : ℕ), n ≤ acc.1.length →
    (l.foldl deepcopyStep acc).1.take n = acc.1.take n ∧
    n ≤ (l.foldl deepcopyStep acc).1.length ∧
    ∀ b ∈ (l.foldl deepcopyStep acc).2, b ∈ acc.2 ∨ n ≤ b := by
  induction l with
  | nil => intro acc n hn; exact ⟨rfl, hn, fun b hb => Or.inl hb⟩
  | cons a l ih =>
    intro acc n hn
    rw [List.foldl_cons]
    have hstep1 : (deepcopyStep acc a).1 = acc.1 ++ [readP acc.1 a] := rfl
    have hstep2 : (deepcopyStep acc a).2 = acc.2 ++ [acc.1.length] := rfl
    have hn' : n ≤ (deepcopyStep acc a).1.length := by
      rw [hstep1]
      simp
      omega
    obtain ⟨h1, h2, h3⟩ := ih (deepcopyStep acc a) n hn'
    refine ⟨?_, h2, ?_⟩
    · rw [h1, hstep1, List.take_append_of_le_length hn]
    · intro b hb
      rcases h3 b hb with hb' | hb'
      · rw [hstep2] at hb'
        rcases List.mem_append.mp hb' with hb'' | hb''
        · exact Or.inl hb''
        · right
          have : b = acc.1.length := by simpa using hb''
          omega
      · exact Or.inr hb'

theorem deepcopyH_spec (s : Store) (l : List ℕ) (n : ℕ) (hn : n ≤ s.length) :
    (deepcopyH s l).1.take n = s.take n ∧
    n ≤ (deepcopyH s l).1.length ∧
    ∀ b ∈ (deepcopyH s l).2, n ≤ b := by
  obtain ⟨h1, h2, h3⟩ := deepcopy_foldl_spec l (s, []) n hn
  exact ⟨h1, h2, fun b hb => by
    rcases h3 b hb with hb' | hb'
    · simp at hb'
    · exact hb'⟩

theorem doubleAuxH_spec (rest : List ℕ) :
    ∀ (s : Store) (prev first n : ℕ), n ≤ s.length →
    (doubleAuxH s prev rest first).1.take n = s.take n ∧
    n ≤ (doubleAuxH s prev rest first).1.length := by
  induction rest with
  | nil =>
    intro s prev first n hn
    unfold doubleAuxH
    refine ⟨take_alloc _ _ _ hn, ?_⟩
    simp [alloc]
    omega
  | cons a rest' ih =>
    intro s prev first n hn
    unfold doubleAuxH
    dsimp only
    have hn' : n ≤ (alloc s (getMidpoint (readP s prev) (readP s a))).1.length := by
      simp [alloc]
      omega
    obtain ⟨h1, h2⟩ := ih _ a first n hn'
    exact ⟨h1.trans (take_alloc _ _ _ hn), h2⟩

theorem doublePointsH_spec (s : Store) (pts : List ℕ) (n : ℕ)
    (hn : n ≤ s.length) :
    (doublePointsH s pts).1.take n = s.take n ∧
    n ≤ (doublePointsH s pts).1.length := by
  cases pts with
  | nil => exact ⟨rfl, hn⟩
  | cons a0 rest =>
    unfold doublePointsH
    exact doubleAuxH_spec rest s a0 a0 n hn

theorem detectStepH_spec (doubled : List ℕ) (halfLength : ℕ)
    (acc : Store × List (ℕ × ℕ)) (index : ℕ) (n : ℕ)
    (hn : n ≤ acc.1.length) :
    (detectStepH doubled halfLength acc index).1.take n = acc.1.take n ∧
    n ≤ (detectStepH doubled halfLength acc index).1.length := by
  obtain ⟨hc1, hc2, hc3⟩ := deepcopyH_spec acc.1 doubled n hn
  unfold detectStepH
  dsimp only
  constructor
  · rw [take_rotateShapeH _ _ _ _ hc3, take_translateShapeH _ _ _ _ _ hc3, hc1]
  · rw [rotateShapeH_length, translateShapeH_length]
    exact hc2

theorem foldl_detectStepH_spec (doubled : List ℕ) (halfLength : ℕ)
    (L : List ℕ) :
    ∀ (acc : Store × List (ℕ × ℕ)) (n : ℕ), n ≤ acc.1.length →
    (L.foldl (detectStepH doubled halfLength) acc).1.take n =
      acc.1.take n ∧
    n ≤ (L.foldl (detectStepH doubled halfLength) acc).1.length := by
  induction L with
  | nil => intro acc n hn; exact ⟨rfl, hn⟩
  | cons a L ih =>
    intro acc n hn
    rw [List.foldl_cons]
    obtain ⟨h1, h2⟩ := detectStepH_spec doubled halfLength acc a n hn
    obtain ⟨h3, h4⟩ := ih (detectStepH doubled halfLength acc a) n h2
    exact ⟨h3.trans h1, h4⟩

theorem detectH_take (s : Store) (pts : List ℕ) (n : ℕ) (hn : n ≤ s.length) :
    (detectH s pts).1.take n = s.take n := by
  unfold detectH
  dsimp only
  obtain ⟨h1, h2⟩ := doublePointsH_spec s pts n hn
  obtain ⟨h3, _⟩ := foldl_detectStepH_spec (doublePointsH s pts).2
    ((doublePointsH s pts).2.length / 2)
    (List.range ((doublePointsH s pts).2.length / 2))
    ((doublePointsH s pts).1, []) n h2
  exact h3.trans h1

/-- C9: `get_lines_of_symmetry` never mutates the caller's input points.  In
the heap model — where Python `Point` objects are addressed store cells, the
doubled list shares the caller's objects at its even slots, `deepcopy`
allocates fresh cells and `_translate_shape` / `_rotate_point` write in place
— every address that exists before the call (in particular every address of
the caller's polygon) holds exactly its original coordinates after the call:
all writes land in per-candidate deep-copy cells. -/
theorem no_mutation_spec (s : Store) (pts : List ℕ)
    (hvalid : ∀ a ∈ pts, a < s.length) :
    ∀ a ∈ pts, readP (detectH s pts).1 a = readP s a := by
  intro a ha
  have haLt : a < s.length := hvalid a ha
  have htake := detectH_take s pts s.length le_rfl
  unfold readP
  have h1 : (detectH s pts).1[a]? = s[a]? := by
    have e1 : ((detectH s pts).1.take s.length)[a]? = (detectH s pts).1[a]? :=
      List.getElem?_take_of_lt haLt
    have e2 : (s.take s.length)[a]? = s[a]? := List.getElem?_take_of_lt haLt
    rw [← e1, ← e2, htake]
  simp [h1]

/-- Witness for C9: a concrete two-object store holding the caller's segment
`[(0,0), (0,100)]`; after detection both objects still hold their original
coordinates. -/
theorem no_mutation_spec_witness :
    (∀ a ∈ [0, 1], a < ([Point.mk 0 0, Point.mk 0 100] : Store).length) ∧
    ∀ a ∈ [0, 1],
      readP (detectH [Point.mk 0 0, Point.mk 0 100] [0, 1]).1 a =
        readP [Point.mk 0 0, Point.mk 0 100] a := by
  refine ⟨by decide, ?_⟩
  exact no_mutation_spec [Point.mk 0 0, Point.mk 0 100] [0, 1] (by decide)

/-! ### The square fixture: evaluation -/

theorem square_doubled :
    doublePoints squarePts =
      [⟨0, 0⟩, ⟨0, 50⟩, ⟨0, 100⟩, ⟨50, 100⟩, ⟨100, 100⟩, ⟨100, 50⟩,
       ⟨100, 0⟩, ⟨50, 0⟩] := by
  norm_num [squarePts, doublePoints, doubleAux, getMidpoint]

theorem square_w0 :
    workRotated (doublePoints squarePts) 4 0 =
      [⟨0, 0⟩,
       ⟨5000 / Real.sqrt 20000, 5000 / Real.sqrt 20000⟩,
       ⟨10000 / Real.sqrt 20000, 10000 / Real.sqrt 20000⟩,
       ⟨15000 / Real.sqrt 20000, 5000 / Real.sqrt 20000⟩,
       ⟨20000 / Real.sqrt 20000, 0⟩,
       ⟨15000 / Real.sqrt 20000, -(5000 / Real.sqrt 20000)⟩,
       ⟨10000 / Real.sqrt 20000, -(10000 / Real.sqrt 20000)⟩,
       ⟨5000 / Real.sqrt 20000, -(5000 / Real.sqrt 20000)⟩] := by
  rw [square_doubled]
  have ht : workTranslated
      ([⟨0, 0⟩, ⟨0, 50⟩, ⟨0, 100⟩, ⟨50, 100⟩, ⟨100, 100⟩, ⟨100, 50⟩,
        ⟨100, 0⟩, ⟨50, 0⟩] : List Point) 0 =
      [⟨0, 0⟩, ⟨0, 50⟩, ⟨0, 100⟩, ⟨50, 100⟩, ⟨100, 100⟩, ⟨100, 50⟩,
       ⟨100, 0⟩, ⟨50, 0⟩] := by
    unfold workTranslated
    norm_num [pyGet, pyGet?, translateShape]
  unfold workRotated
  dsimp only
  rw [ht]
  have hpf : pyGet ([⟨0, 0⟩, ⟨0, 50⟩, ⟨0, 100⟩, ⟨50, 100⟩, ⟨100, 100⟩,
      ⟨100, 50⟩, ⟨100, 0⟩, ⟨50, 0⟩] : List Point) ((0 : ℕ) : ℤ) = ⟨0, 0⟩ := by
    norm_num [pyGet, pyGet?]
  have hpo : pyGet ([⟨0, 0⟩, ⟨0, 50⟩, ⟨0, 100⟩, ⟨50, 100⟩, ⟨100, 100⟩,
      ⟨100, 50⟩, ⟨100, 0⟩, ⟨50, 0⟩] : List Point) (((0 : ℕ) : ℤ) + (4 : ℕ)) =
      ⟨100, 100⟩ := by
    norm_num [pyGet, pyGet?, Int.toNat_ofNat]
    rfl
  rw [hpf, hpo]
  have hr : ∀ p : Point, rotatePoint p (getAngle ⟨0, 0⟩ ⟨100, 100⟩) =
      ⟨(p.x * 100 + p.y * 100) / Real.sqrt 20000,
       (p.y * 100 - p.x * 100) / Real.sqrt 20000⟩ := by
    intro p
    rw [rotatePoint_getAngle _ _ _ (by norm_num)]
    norm_num
  simp only [hr, List.map_cons, List.map_nil]
  norm_num [neg_div]

theorem mirrorClose_abs (W : List Point) (i m : ℕ) (x y1 y2 : ℝ)
    (h1 : pyGet W ((i : ℤ) - m) = ⟨x, y1⟩)
    (h2 : pyGet W ((i : ℤ) + m) = ⟨x, y2⟩)
    (hy : |y1| = |y2|) : mirrorClose W i m := by
  unfold mirrorClose
  rw [h1, h2]
  apply pointsReallyClose_of_eq
  · rfl
  · exact hy

theorem square_pass0 : candidatePasses (doublePoints squarePts) 4 0 := by
  unfold candidatePasses
  rw [symmetricalCheck_iff]
  simp only [square_w0]
  intro m hm
  interval_cases m
  · exact mirrorClose_abs _ _ _ _ _ _ rfl rfl rfl
  · exact mirrorClose_abs _ _ _ _ _ _ rfl rfl (by rw [abs_neg])
  · exact mirrorClose_abs _ _ _ _ _ _ rfl rfl (by rw [abs_neg])
  · exact mirrorClose_abs _ _ _ _ _ _ rfl rfl (by rw [abs_neg])

theorem sqrt_10000 : Real.sqrt 10000 = 100 := by
  rw [show (10000 : ℝ) = 100 ^ 2 by norm_num, Real.sqrt_sq (by norm_num)]

theorem square_w1 :
    workRotated (doublePoints squarePts) 4 1 =
      [⟨0, -50⟩, ⟨0, 0⟩, ⟨0, 50⟩, ⟨50, 50⟩, ⟨100, 50⟩, ⟨100, 0⟩,
       ⟨100, -50⟩, ⟨50, -50⟩] := by
  rw [square_doubled]
  have ht : workTranslated
      ([⟨0, 0⟩, ⟨0, 50⟩, ⟨0, 100⟩, ⟨50, 100⟩, ⟨100, 100⟩, ⟨100, 50⟩,
        ⟨100, 0⟩, ⟨50, 0⟩] : List Point) 1 =
      [⟨0, -50⟩, ⟨0, 0⟩, ⟨0, 50⟩, ⟨50, 50⟩, ⟨100, 50⟩, ⟨100, 0⟩,
       ⟨100, -50⟩, ⟨50, -50⟩] := by
    unfold workTranslated
    dsimp only
    have hpf1 : pyGet ([⟨0, 0⟩, ⟨0, 50⟩, ⟨0, 100⟩, ⟨50, 100⟩, ⟨100, 100⟩,
        ⟨100, 50⟩, ⟨100, 0⟩, ⟨50, 0⟩] : List Point) ((1 : ℕ) : ℤ) =
        ⟨0, 50⟩ := rfl
    rw [hpf1]
    norm_num [translateShape]
  unfold workRotated
  dsimp only
  rw [ht]
  have hpf : pyGet ([⟨0, -50⟩, ⟨0, 0⟩, ⟨0, 50⟩, ⟨50, 50⟩, ⟨100, 50⟩,
      ⟨100, 0⟩, ⟨100, -50⟩, ⟨50, -50⟩] : List Point) ((1 : ℕ) : ℤ) =
      ⟨0, 0⟩ := rfl
  have hpo : pyGet ([⟨0, -50⟩, ⟨0, 0⟩, ⟨0, 50⟩, ⟨50, 50⟩, ⟨100, 50⟩,
      ⟨100, 0⟩, ⟨100, -50⟩, ⟨50, -50⟩] : List Point)
      (((1 : ℕ) : ℤ) + ((4 : ℕ) : ℤ)) = ⟨100, 0⟩ := rfl
  rw [hpf, hpo]
  have hr : ∀ p : Point, rotatePoint p (getAngle ⟨0, 0⟩ ⟨100, 0⟩) = p := by
    intro p
    rw [rotatePoint_getAngle _ _ _ (by norm_num)]
    have harg : ((100 : ℝ) - 0) ^ 2 + ((0 : ℝ) - 0) ^ 2 = 10000 := by
      norm_num
    rw [harg, sqrt_10000]
    ext <;> dsimp <;> ring
  simp only [hr, List.map_cons, List.map_nil]

theorem square_pass1 : candidatePasses (doublePoints squarePts) 4 1 := by
  unfold candidatePasses
  rw [symmetricalCheck_iff]
  simp only [square_w1]
  intro m hm
  interval_cases m
  · exact mirrorClose_abs _ _ _ _ _ _ rfl rfl rfl
  · exact mirrorClose_abs _ _ _ _ _ _ rfl rfl (by rw [abs_neg])
  · exact mirrorClose_abs _ _ _ _ _ _ rfl rfl (by rw [abs_neg])
  · exact mirrorClose_abs _ _ _ _ _ _ rfl rfl (by rw [abs_neg])

theorem square_w2 :
    workRotated (doublePoints squarePts) 4 2 =
      [⟨10000 / Real.sqrt 20000, -(10000 / Real.sqrt 20000)⟩,
       ⟨5000 / Real.sqrt 20000, -(5000 / Real.sqrt 20000)⟩,
       ⟨0, 0⟩,
       ⟨5000 / Real.sqrt 20000, 5000 / Real.sqrt 20000⟩,
       ⟨10000 / Real.sqrt 20000, 10000 / Real.sqrt 20000⟩,
       ⟨15000 / Real.sqrt 20000, 5000 / Real.sqrt 20000⟩,
       ⟨20000 / Real.sqrt 20000, 0⟩,
       ⟨15000 / Real.sqrt 20000, -(5000 / Real.sqrt 20000)⟩] := by
  rw [square_doubled]
  have ht : workTranslated
      ([⟨0, 0⟩, ⟨0, 50⟩, ⟨0, 100⟩, ⟨50, 100⟩, ⟨100, 100⟩, ⟨100, 50⟩,
        ⟨100, 0⟩, ⟨50, 0⟩] : List Point) 2 =
      [⟨0, -100⟩, ⟨0, -50⟩, ⟨0, 0⟩, ⟨50, 0⟩, ⟨100, 0⟩, ⟨100, -50⟩,
       ⟨100, -100⟩, ⟨50, -100⟩] := by
    unfold workTranslated
    dsimp only
    have hpf2 : pyGet ([⟨0, 0⟩, ⟨0, 50⟩, ⟨0, 100⟩, ⟨50, 100⟩, ⟨100, 100⟩,
        ⟨100, 50⟩, ⟨100, 0⟩, ⟨50, 0⟩] : List Point) ((2 : ℕ) : ℤ) =
        ⟨0, 100⟩ := rfl
    rw [hpf2]
    norm_num [translateShape]
  unfold workRotated
  dsimp only
  rw [ht]
  have hpf : pyGet ([⟨0, -100⟩, ⟨0, -50⟩, ⟨0, 0⟩, ⟨50, 0⟩, ⟨100, 0⟩,
      ⟨100, -50⟩, ⟨100, -100⟩, ⟨50, -100⟩] : List Point) ((2 : ℕ) : ℤ) =
      ⟨0, 0⟩ := rfl
  have hpo : pyGet ([⟨0, -100⟩, ⟨0, -50⟩, ⟨0, 0⟩, ⟨50, 0⟩, ⟨100, 0⟩,
      ⟨100, -50⟩, ⟨100, -100⟩, ⟨50, -100⟩] : List Point)
      (((2 : ℕ) : ℤ) + ((4 : ℕ) : ℤ)) = ⟨100, -100⟩ := rfl
  rw [hpf, hpo]
  have hr : ∀ p : Point, rotatePoint p (getAngle ⟨0, 0⟩ ⟨100, -100⟩) =
      ⟨(p.x * 100 - p.y * 100) / Real.sqrt 20000,
       (p.y * 100 + p.x * 100) / Real.sqrt 20000⟩ := by
    intro p
    rw [rotatePoint_getAngle _ _ _ (by norm_num)]
    have harg : ((100 : ℝ) - 0) ^ 2 + ((-100 : ℝ) - 0) ^ 2 = 20000 := by
      norm_num
    rw [harg]
    ext <;> dsimp <;> ring_nf
  simp only [hr, List.map_cons, List.map_nil]
  norm_num [neg_div]

theorem square_pass2 : candidatePasses (doublePoints squarePts) 4 2 := by
  unfold candidatePasses
  rw [symmetricalCheck_iff]
  simp only [square_w2]
  intro m hm
  interval_cases m
  · exact mirrorClose_abs _ _ _ _ _ _ rfl rfl rfl
  · exact mirrorClose_abs _ _ _ _ _ _ rfl rfl (by rw [abs_neg])
  · exact mirrorClose_abs _ _ _ _ _ _ rfl rfl (by rw [abs_neg])
  · exact mirrorClose_abs _ _ _ _ _ _ rfl rfl (by rw [abs_neg])

theorem square_w3 :
    workRotated (doublePoints squarePts) 4 3 =
      [⟨100, -50⟩, ⟨50, -50⟩, ⟨0, -50⟩, ⟨0, 0⟩, ⟨0, 50⟩, ⟨50, 50⟩,
       ⟨100, 50⟩, ⟨100, 0⟩] := by
  rw [square_doubled]
  have ht : workTranslated
      ([⟨0, 0⟩, ⟨0, 50⟩, ⟨0, 100⟩, ⟨50, 100⟩, ⟨100, 100⟩, ⟨100, 50⟩,
        ⟨100, 0⟩, ⟨50, 0⟩] : List Point) 3 =
      [⟨-50, -100⟩, ⟨-50, -50⟩, ⟨-50, 0⟩, ⟨0, 0⟩, ⟨50, 0⟩, ⟨50, -50⟩,
       ⟨50, -100⟩, ⟨0, -100⟩] := by
    unfold workTranslated
    dsimp only
    have hpf3 : pyGet ([⟨0, 0⟩, ⟨0, 50⟩, ⟨0, 100⟩, ⟨50, 100⟩, ⟨100, 100⟩,
        ⟨100, 50⟩, ⟨100, 0⟩, ⟨50, 0⟩] : List Point) ((3 : ℕ) : ℤ) =
        ⟨50, 100⟩ := rfl
    rw [hpf3]
    norm_num [translateShape]
  unfold workRotated
  dsimp only
  rw [ht]
  have hpf : pyGet ([⟨-50, -100⟩, ⟨-50, -50⟩, ⟨-50, 0⟩, ⟨0, 0⟩, ⟨50, 0⟩,
      ⟨50, -50⟩, ⟨50, -100⟩, ⟨0, -100⟩] : List Point) ((3 : ℕ) : ℤ) =
      ⟨0, 0⟩ := rfl
  have hpo : pyGet ([⟨-50, -100⟩, ⟨-50, -50⟩, ⟨-50, 0⟩, ⟨0, 0⟩, ⟨50, 0⟩,
      ⟨50, -50⟩, ⟨50, -100⟩, ⟨0, -100⟩] : List Point)
      (((3 : ℕ) : ℤ) + ((4 : ℕ) : ℤ)) = ⟨0, -100⟩ := rfl
  rw [hpf, hpo]
  have hr : ∀ p : Point, rotatePoint p (getAngle ⟨0, 0⟩ ⟨0, -100⟩) =
      ⟨-p.y, p.x⟩ := by
    intro p
    rw [rotatePoint_getAngle _ _ _ (by norm_num)]
    have harg : ((0 : ℝ) - 0) ^ 2 + ((-100 : ℝ) - 0) ^ 2 = 10000 := by
      norm_num
    rw [harg, sqrt_10000]
    ext <;> dsimp <;> ring
  simp only [hr, List.map_cons, List.map_nil]
  norm_num

theorem square_pass3 : candidatePasses (doublePoints squarePts) 4 3 := by
  unfold candidatePasses
  rw [symmetricalCheck_iff]
  simp only [square_w3]
  intro m hm
  interval_cases m
  · exact mirrorClose_abs _ _ _ _ _ _ rfl rfl rfl
  · exact mirrorClose_abs _ _ _ _ _ _ rfl rfl (by rw [abs_neg])
  · exact mirrorClose_abs _ _ _ _ _ _ rfl rfl (by rw [abs_neg])
  · exact mirrorClose_abs _ _ _ _ _ _ rfl rfl (by rw [abs_neg])


open Classical in
/-- C7: the square `(0,0), (0,100), (100,100), (100,0)` yields exactly 4
symmetry axes: all 4 of its candidate indices (2 through opposite vertex
pairs and 2 through opposite edge-midpoint pairs of the doubled list) pass
the mirror check. -/
theorem square_axes : (getLinesOfSymmetry squarePts).length = 4 := by
  unfold getLinesOfSymmetry
  rw [detect_eq]
  have hhalf : halfLen squarePts = 4 := by
    rw [halfLen_eq]
    rfl
  rw [hhalf]
  have hrange : List.range 4 = [0, 1, 2, 3] := rfl
  rw [hrange]
  have hall : ∀ a ∈ ([0, 1, 2, 3] : List ℕ),
      (fun i => decide (candidatePasses (doublePoints squarePts) 4 i)) a =
        true := by
    intro a ha
    fin_cases ha <;>
      simp [square_pass0, square_pass1, square_pass2, square_pass3]
  rw [List.filter_eq_self.mpr hall]
  simp

/-! ### Rigid motions: a degenerate counterexample -/

theorem vseg_doubled :
    doublePoints [⟨0, 0⟩, ⟨0, 100⟩] =
      ([⟨0, 0⟩, ⟨0, 50⟩, ⟨0, 100⟩, ⟨0, 50⟩] : List Point) := by
  norm_num [doublePoints, doubleAux, getMidpoint]

theorem hseg_doubled :
    doublePoints [⟨0, 0⟩, ⟨100, 0⟩] =
      ([⟨0, 0⟩, ⟨50, 0⟩, ⟨100, 0⟩, ⟨50, 0⟩] : List Point) := by
  norm_num [doublePoints, doubleAux, getMidpoint]

theorem vseg_w0 :
    workRotated (doublePoints [⟨0, 0⟩, ⟨0, 100⟩]) 2 0 =
      ([⟨0, 0⟩, ⟨50, 0⟩, ⟨100, 0⟩, ⟨50, 0⟩] : List Point) := by
  rw [vseg_doubled]
  have ht : workTranslated ([⟨0, 0⟩, ⟨0, 50⟩, ⟨0, 100⟩, ⟨0, 50⟩] :
      List Point) 0 = [⟨0, 0⟩, ⟨0, 50⟩, ⟨0, 100⟩, ⟨0, 50⟩] := by
    unfold workTranslated
    dsimp only
    have hpf0 : pyGet ([⟨0, 0⟩, ⟨0, 50⟩, ⟨0, 100⟩, ⟨0, 50⟩] : List Point)
        ((0 : ℕ) : ℤ) = ⟨0, 0⟩ := rfl
    rw [hpf0]
    norm_num [translateShape]
  unfold workRotated
  dsimp only
  rw [ht]
  have hpf : pyGet ([⟨0, 0⟩, ⟨0, 50⟩, ⟨0, 100⟩, ⟨0, 50⟩] : List Point)
      ((0 : ℕ) : ℤ) = ⟨0, 0⟩ := rfl
  have hpo : pyGet ([⟨0, 0⟩, ⟨0, 50⟩, ⟨0, 100⟩, ⟨0, 50⟩] : List Point)
      (((0 : ℕ) : ℤ) + ((2 : ℕ) : ℤ)) = ⟨0, 100⟩ := rfl
  rw [hpf, hpo]
  have hr : ∀ p : Point, rotatePoint p (getAngle ⟨0, 0⟩ ⟨0, 100⟩) =
      ⟨p.y, -p.x⟩ := by
    intro p
    rw [rotatePoint_getAngle _ _ _ (by norm_num)]
    have harg : ((0 : ℝ) - 0) ^ 2 + ((100 : ℝ) - 0) ^ 2 = 10000 := by
      norm_num
    rw [harg, sqrt_10000]
    ext <;> dsimp <;> ring
  simp only [hr, List.map_cons, List.map_nil]
  norm_num

theorem vseg_w1 :
    workRotated (doublePoints [⟨0, 0⟩, ⟨0, 100⟩]) 2 1 =
      ([⟨0, -50⟩, ⟨0, 0⟩, ⟨0, 50⟩, ⟨0, 0⟩] : List Point) := by
  rw [vseg_doubled]
  have ht : workTranslated ([⟨0, 0⟩, ⟨0, 50⟩, ⟨0, 100⟩, ⟨0, 50⟩] :
      List Point) 1 = [⟨0, -50⟩, ⟨0, 0⟩, ⟨0, 50⟩, ⟨0, 0⟩] := by
    unfold workTranslated
    dsimp only
    have hpf1 : pyGet ([⟨0, 0⟩, ⟨0, 50⟩, ⟨0, 100⟩, ⟨0, 50⟩] : List Point)
        ((1 : ℕ) : ℤ) = ⟨0, 50⟩ := rfl
    rw [hpf1]
    norm_num [translateShape]
  unfold workRotated
  dsimp only
  rw [ht]
  have hpf : pyGet ([⟨0, -50⟩, ⟨0, 0⟩, ⟨0, 50⟩, ⟨0, 0⟩] : List Point)
      ((1 : ℕ) : ℤ) = ⟨0, 0⟩ := rfl
  have hpo : pyGet ([⟨0, -50⟩, ⟨0, 0⟩, ⟨0, 50⟩, ⟨0, 0⟩] : List Point)
      (((1 : ℕ) : ℤ) + ((2 : ℕ) : ℤ)) = ⟨0, 0⟩ := rfl
  rw [hpf, hpo]
  have hr : ∀ p : Point, rotatePoint p (getAngle ⟨0, 0⟩ ⟨0, 0⟩) = p :=
    fun p => rotatePoint_getAngle_self _ _ p (by norm_num) (by norm_num)
  simp only [hr, List.map_cons, List.map_nil]

theorem vseg_pass0 : candidatePasses (doublePoints [⟨0, 0⟩, ⟨0, 100⟩]) 2 0 := by
  unfold candidatePasses
  rw [symmetricalCheck_iff]
  simp only [vseg_w0]
  intro m hm
  interval_cases m
  · exact mirrorClose_abs _ _ _ _ _ _ rfl rfl rfl
  · exact mirrorClose_abs _ _ _ _ _ _ rfl rfl rfl

theorem vseg_pass1 : candidatePasses (doublePoints [⟨0, 0⟩, ⟨0, 100⟩]) 2 1 := by
  unfold candidatePasses
  rw [symmetricalCheck_iff]
  simp only [vseg_w1]
  intro m hm
  interval_cases m
  · exact mirrorClose_abs _ _ _ _ _ _ rfl rfl rfl
  · exact mirrorClose_abs _ _ _ _ _ _ rfl rfl (by rw [abs_neg])

theorem hseg_w0 :
    workRotated (doublePoints [⟨0, 0⟩, ⟨100, 0⟩]) 2 0 =
      ([⟨0, 0⟩, ⟨50, 0⟩, ⟨100, 0⟩, ⟨50, 0⟩] : List Point) := by
  rw [hseg_doubled]
  have ht : workTranslated ([⟨0, 0⟩, ⟨50, 0⟩, ⟨100, 0⟩, ⟨50, 0⟩] :
      List Point) 0 = [⟨0, 0⟩, ⟨50, 0⟩, ⟨100, 0⟩, ⟨50, 0⟩] := by
    unfold workTranslated
    dsimp only
    have hpf0 : pyGet ([⟨0, 0⟩, ⟨50, 0⟩, ⟨100, 0⟩, ⟨50, 0⟩] : List Point)
        ((0 : ℕ) : ℤ) = ⟨0, 0⟩ := rfl
    rw [hpf0]
    norm_num [translateShape]
  unfold workRotated
  dsimp only
  rw [ht]
  have hpf : pyGet ([⟨0, 0⟩, ⟨50, 0⟩, ⟨100, 0⟩, ⟨50, 0⟩] : List Point)
      ((0 : ℕ) : ℤ) = ⟨0, 0⟩ := rfl
  have hpo : pyGet ([⟨0, 0⟩, ⟨50, 0⟩, ⟨100, 0⟩, ⟨50, 0⟩] : List Point)
      (((0 : ℕ) : ℤ) + ((2 : ℕ) : ℤ)) = ⟨100, 0⟩ := rfl
  rw [hpf, hpo]
  have hr : ∀ p : Point, rotatePoint p (getAngle ⟨0, 0⟩ ⟨100, 0⟩) = p := by
    intro p
    rw [rotatePoint_getAngle _ _ _ (by norm_num)]
    have harg : ((100 : ℝ) - 0) ^ 2 + ((0 : ℝ) - 0) ^ 2 = 10000 := by
      norm_num
    rw [harg, sqrt_10000]
    ext <;> dsimp <;> ring
  simp only [hr, List.map_cons, List.map_nil]

theorem hseg_w1 :
    workRotated (doublePoints [⟨0, 0⟩, ⟨100, 0⟩]) 2 1 =
      ([⟨-50, 0⟩, ⟨0, 0⟩, ⟨50, 0⟩, ⟨0, 0⟩] : List Point) := by
  rw [hseg_doubled]
  have ht : workTranslated ([⟨0, 0⟩, ⟨50, 0⟩, ⟨100, 0⟩, ⟨50, 0⟩] :
      List Point) 1 = [⟨-50, 0⟩, ⟨0, 0⟩, ⟨50, 0⟩, ⟨0, 0⟩] := by
    unfold workTranslated
    dsimp only
    have hpf1 : pyGet ([⟨0, 0⟩, ⟨50, 0⟩, ⟨100, 0⟩, ⟨50, 0⟩] : List Point)
        ((1 : ℕ) : ℤ) = ⟨50, 0⟩ := rfl
    rw [hpf1]
    norm_num [translateShape]
  unfold workRotated
  dsimp only
  rw [ht]
  have hpf : pyGet ([⟨-50, 0⟩, ⟨0, 0⟩, ⟨50, 0⟩, ⟨0, 0⟩] : List Point)
      ((1 : ℕ) : ℤ) = ⟨0, 0⟩ := rfl
  have hpo : pyGet ([⟨-50, 0⟩, ⟨0, 0⟩, ⟨50, 0⟩, ⟨0, 0⟩] : List Point)
      (((1 : ℕ) : ℤ) + ((2 : ℕ) : ℤ)) = ⟨0, 0⟩ := rfl
  rw [hpf, hpo]
  have hr : ∀ p : Point, rotatePoint p (getAngle ⟨0, 0⟩ ⟨0, 0⟩) = p :=
    fun p => rotatePoint_getAngle_self _ _ p (by norm_num) (by norm_num)
  simp only [hr, List.map_cons, List.map_nil]

theorem hseg_pass0 : candidatePasses (doublePoints [⟨0, 0⟩, ⟨100, 0⟩]) 2 0 := by
  unfold candidatePasses
  rw [symmetricalCheck_iff]
  simp only [hseg_w0]
  intro m hm
  interval_cases m
  · exact mirrorClose_abs _ _ _ _ _ _ rfl rfl rfl
  · exact mirrorClose_abs _ _ _ _ _ _ rfl rfl rfl

theorem hseg_fail1 :
    ¬ candidatePasses (doublePoints [⟨0, 0⟩, ⟨100, 0⟩]) 2 1 := by
  unfold candidatePasses
  rw [symmetricalCheck_iff]
  intro hall
  have hm := hall 1 (by norm_num)
  rw [hseg_w1] at hm
  unfold mirrorClose at hm
  have e1 : pyGet ([⟨-50, 0⟩, ⟨0, 0⟩, ⟨50, 0⟩, ⟨0, 0⟩] : List Point)
      (((1 : ℕ) : ℤ) - ((1 : ℕ) : ℤ)) = ⟨-50, 0⟩ := rfl
  have e2 : pyGet ([⟨-50, 0⟩, ⟨0, 0⟩, ⟨50, 0⟩, ⟨0, 0⟩] : List Point)
      (((1 : ℕ) : ℤ) + ((1 : ℕ) : ℤ)) = ⟨50, 0⟩ := rfl
  rw [e1, e2] at hm
  unfold pointsReallyClose getDistance CLOSE_ENOUGH at hm
  norm_num [sqrt_10000] at hm

open Classical in
theorem vseg_count : (getLinesOfSymmetry [⟨0, 0⟩, ⟨0, 100⟩]).length = 2 := by
  unfold getLinesOfSymmetry
  rw [detect_eq]
  have hhalf : halfLen [⟨0, 0⟩, ⟨0, 100⟩] = 2 := by
    rw [halfLen_eq]
    rfl
  rw [hhalf]
  have hrange : List.range 2 = [0, 1] := rfl
  rw [hrange]
  have hall : ∀ a ∈ ([0, 1] : List ℕ),
      (fun i => decide (candidatePasses
        (doublePoints [⟨0, 0⟩, ⟨0, 100⟩]) 2 i)) a = true := by
    intro a ha
    fin_cases ha <;> simp [vseg_pass0, vseg_pass1]
  rw [List.filter_eq_self.mpr hall]
  simp

open Classical in
theorem hseg_count : (getLinesOfSymmetry [⟨0, 0⟩, ⟨100, 0⟩]).length = 1 := by
  unfold getLinesOfSymmetry
  rw [detect_eq]
  have hhalf : halfLen [⟨0, 0⟩, ⟨100, 0⟩] = 2 := by
    rw [halfLen_eq]
    rfl
  rw [hhalf]
  have hrange : List.range 2 = [0, 1] := rfl
  rw [hrange]
  have hfil : List.filter
      (fun i => decide (candidatePasses
        (doublePoints [⟨0, 0⟩, ⟨100, 0⟩]) 2 i)) [0, 1] = [0] := by
    rw [List.filter_cons, List.filter_cons, List.filter_nil]
    simp [hseg_pass0, hseg_fail1]
  rw [hfil]
  simp

theorem seg_rigid :
    List.map (rigidMap (-(Real.pi / 2)) ⟨0, 0⟩) [⟨0, 0⟩, ⟨0, 100⟩] =
      ([⟨0, 0⟩, ⟨100, 0⟩] : List Point) := by
  unfold rigidMap
  norm_num [Real.cos_pi_div_two, Real.sin_pi_div_two]

/-- C8 (counterexample): rigidly rotating the segment `(0,0)-(0,100)` by a
quarter turn to `(0,0)-(100,0)` changes the number of detected axes from 2
to 1: the degenerate midpoint candidate (whose opposite point coincides with
its pivot, so `atan2(0,0) = 0` and no rotation is applied) passes for the
vertical segment but fails for the horizontal one. -/
theorem rigid_count_counterexample :
    List.map (rigidMap (-(Real.pi / 2)) ⟨0, 0⟩) [⟨0, 0⟩, ⟨0, 100⟩] =
      ([⟨0, 0⟩, ⟨100, 0⟩] : List Point) ∧
    (getLinesOfSymmetry [⟨0, 0⟩, ⟨0, 100⟩]).length = 2 ∧
    (getLinesOfSymmetry [⟨0, 0⟩, ⟨100, 0⟩]).length = 1 :=
  ⟨seg_rigid, vseg_count, hseg_count⟩

/-! ### Rigid-motion invariance for nondegenerate candidates -/

theorem rigidMap_midpoint (θ : ℝ) (t a b : Point) :
    getMidpoint (rigidMap θ t a) (rigidMap θ t b) =
      rigidMap θ t (getMidpoint a b) := by
  unfold getMidpoint rigidMap
  ext <;> dsimp <;> ring

theorem doubleAux_map (θ : ℝ) (t : Point) (rest : List Point) :
    ∀ prev first : Point,
    doubleAux (rigidMap θ t prev) (rest.map (rigidMap θ t))
        (rigidMap θ t first) =
      (doubleAux prev rest first).map (rigidMap θ t) := by
  induction rest with
  | nil =>
    intro prev first
    simp [doubleAux, rigidMap_midpoint]
  | cons p rest' ih =>
    intro prev first
    simp [doubleAux, rigidMap_midpoint, ih]

theorem doublePoints_map (θ : ℝ) (t : Point) (pts : List Point) :
    doublePoints (pts.map (rigidMap θ t)) =
      (doublePoints pts).map (rigidMap θ t) := by
  cases pts with
  | nil => rfl
  | cons p0 rest =>
    show doublePoints (rigidMap θ t p0 :: rest.map (rigidMap θ t)) = _
    simp only [doublePoints]
    rw [doubleAux_map]
    simp

/-- Rotating the whole configuration rigidly by `θ` before the
translate-to-pivot step commutes with the candidate rotation: the rotated
working points are EQUAL, not merely congruent, provided the opposite point
differs from the pivot (otherwise `atan2(0,0)` makes the rotation the
identity and equality fails, as the recorded counterexample shows). -/
theorem rotatePoint_getAngle_rigid (θ : ℝ) (pf po w : Point)
    (hpo : ¬(po.x - pf.x = 0 ∧ po.y - pf.y = 0)) :
    rotatePoint (rigidMap θ ⟨0, 0⟩ w)
        (getAngle (rigidMap θ ⟨0, 0⟩ pf) (rigidMap θ ⟨0, 0⟩ po)) =
      rotatePoint w (getAngle pf po) := by
  have hsc : Real.sin θ ^ 2 + Real.cos θ ^ 2 = 1 := Real.sin_sq_add_cos_sq θ
  have hnorm : ((rigidMap θ ⟨0, 0⟩ po).x - (rigidMap θ ⟨0, 0⟩ pf).x) ^ 2 +
      ((rigidMap θ ⟨0, 0⟩ po).y - (rigidMap θ ⟨0, 0⟩ pf).y) ^ 2 =
      (po.x - pf.x) ^ 2 + (po.y - pf.y) ^ 2 := by
    unfold rigidMap
    dsimp
    linear_combination ((po.x - pf.x) ^ 2 + (po.y - pf.y) ^ 2) * hsc
  have hpo' : ¬((rigidMap θ ⟨0, 0⟩ po).x - (rigidMap θ ⟨0, 0⟩ pf).x = 0 ∧
      (rigidMap θ ⟨0, 0⟩ po).y - (rigidMap θ ⟨0, 0⟩ pf).y = 0) := by
    rintro ⟨h1, h2⟩
    rw [h1, h2] at hnorm
    norm_num at hnorm
    refine hpo ⟨?_, ?_⟩
    · nlinarith [sq_nonneg (po.x - pf.x), sq_nonneg (po.y - pf.y)]
    · nlinarith [sq_nonneg (po.x - pf.x), sq_nonneg (po.y - pf.y)]
  rw [rotatePoint_getAngle _ _ _ hpo', rotatePoint_getAngle _ _ _ hpo,
    hnorm]
  ext
  · dsimp
    congr 1
    unfold rigidMap
    dsimp
    linear_combination (w.x * (po.x - pf.x) + w.y * (po.y - pf.y)) * hsc
  · dsimp
    congr 1
    unfold rigidMap
    dsimp
    linear_combination (w.y * (po.x - pf.x) - w.x * (po.y - pf.y)) * hsc

theorem workTranslated_map (θ : ℝ) (t : Point) (d : List Point) (i : ℕ)
    (hi : (i : ℤ) < d.length) :
    workTranslated (d.map (rigidMap θ t)) i =
      (workTranslated d i).map (rigidMap θ ⟨0, 0⟩) := by
  unfold workTranslated
  dsimp only
  rw [pyGet_map (rigidMap θ t) d (i : ℤ) (by omega) hi]
  unfold translateShape
  rw [List.map_map, List.map_map]
  apply List.map_congr_left
  intro p _
  dsimp [Function.comp]
  unfold rigidMap
  ext <;> dsimp <;> ring

theorem workRotated_map (θ : ℝ) (t : Point) (d : List Point) (n i : ℕ)
    (hlen : d.length = 2 * n) (hi : i < n)
    (hnd : pyGet d ((i : ℤ) + n) ≠ pyGet d (i : ℤ)) :
    workRotated (d.map (rigidMap θ t)) n i = workRotated d n i := by
  have hiZ : (i : ℤ) < d.length := by omega
  have hioZ : (i : ℤ) + n < d.length := by omega
  unfold workRotated
  dsimp only
  rw [workTranslated_map θ t d i hiZ]
  have hTlen : (workTranslated d i).length = d.length := by
    unfold workTranslated translateShape
    simp
  rw [pyGet_map (rigidMap θ ⟨0, 0⟩) (workTranslated d i) (i : ℤ)
      (by omega) (by omega),
    pyGet_map (rigidMap θ ⟨0, 0⟩) (workTranslated d i) ((i : ℤ) + n)
      (by omega) (by omega)]
  rw [List.map_map]
  apply List.map_congr_left
  intro w _
  dsimp [Function.comp]
  apply rotatePoint_getAngle_rigid
  have hpfT : pyGet (workTranslated d i) (i : ℤ) =
      ⟨(pyGet d (i : ℤ)).x - (pyGet d (i : ℤ)).x,
       (pyGet d (i : ℤ)).y - (pyGet d (i : ℤ)).y⟩ := by
    unfold workTranslated translateShape
    dsimp only
    rw [pyGet_map _ d (i : ℤ) (by omega) hiZ]
  have hpoT : pyGet (workTranslated d i) ((i : ℤ) + n) =
      ⟨(pyGet d ((i : ℤ) + n)).x - (pyGet d (i : ℤ)).x,
       (pyGet d ((i : ℤ) + n)).y - (pyGet d (i : ℤ)).y⟩ := by
    unfold workTranslated translateShape
    dsimp only
    rw [pyGet_map _ d ((i : ℤ) + n) (by omega) hioZ]
  rintro ⟨h1, h2⟩
  rw [hpfT, hpoT] at h1 h2
  dsimp at h1 h2
  apply hnd
  ext
  · linarith
  · linarith

open Classical in
/-- C8 (amended): provided no candidate is degenerate — for every candidate
index, the opposite doubled point differs from the pivot doubled point, so
no candidate hits the `atan2(0, 0)` convention — applying an arbitrary rigid
rotation-plus-translation to the whole input polygon leaves the number of
detected symmetry axes unchanged.  (Without that proviso the count can
change; see the recorded counterexample.) -/
theorem rigid_invariance (pts : List Point) (θ : ℝ) (t : Point)
    (hnd : ∀ i < pts.length,
      pyGet (doublePoints pts) ((i : ℤ) + pts.length) ≠
        pyGet (doublePoints pts) (i : ℤ)) :
    (getLinesOfSymmetry (pts.map (rigidMap θ t))).length =
      (getLinesOfSymmetry pts).length := by
  unfold getLinesOfSymmetry
  rw [detect_eq, detect_eq]
  have hh1 : halfLen (pts.map (rigidMap θ t)) = pts.length := by
    rw [halfLen_eq, List.length_map]
  have hh2 : halfLen pts = pts.length := halfLen_eq pts
  rw [hh1, hh2]
  simp only [List.length_map]
  refine congrArg List.length (List.filter_congr ?_)
  intro i hi
  have hiLt : i < pts.length := List.mem_range.mp hi
  have hw : workRotated (doublePoints (pts.map (rigidMap θ t)))
      pts.length i = workRotated (doublePoints pts) pts.length i := by
    rw [doublePoints_map]
    exact workRotated_map θ t (doublePoints pts) pts.length i
      (doublePoints_length pts) hiLt (hnd i hiLt)
  rw [decide_eq_decide]
  unfold candidatePasses
  rw [hw]

/-- Witness for the amended C8: the scalene triangle `(0,0), (10,50),
(80,30)` (no doubled point coincides with its opposite) keeps its axis count
under the rigid motion with `θ = 0` and translation `(3, 4)`. -/
theorem rigid_invariance_witness :
    (∀ i < ([⟨0, 0⟩, ⟨10, 50⟩, ⟨80, 30⟩] : List Point).length,
      pyGet (doublePoints [⟨0, 0⟩, ⟨10, 50⟩, ⟨80, 30⟩])
          ((i : ℤ) + ([⟨0, 0⟩, ⟨10, 50⟩, ⟨80, 30⟩] : List Point).length) ≠
        pyGet (doublePoints [⟨0, 0⟩, ⟨10, 50⟩, ⟨80, 30⟩]) (i : ℤ)) ∧
    (getLinesOfSymmetry (([⟨0, 0⟩, ⟨10, 50⟩, ⟨80, 30⟩] : List Point).map
        (rigidMap 0 ⟨3, 4⟩))).length =
      (getLinesOfSymmetry [⟨0, 0⟩, ⟨10, 50⟩, ⟨80, 30⟩]).length := by
  have hd : doublePoints [⟨0, 0⟩, ⟨10, 50⟩, ⟨80, 30⟩] =
      ([⟨0, 0⟩, ⟨5, 25⟩, ⟨10, 50⟩, ⟨45, 40⟩, ⟨80, 30⟩, ⟨40, 15⟩] :
        List Point) := by
    norm_num [doublePoints, doubleAux, getMidpoint]
  have hnd : ∀ i < ([⟨0, 0⟩, ⟨10, 50⟩, ⟨80, 30⟩] : List Point).length,
      pyGet (doublePoints [⟨0, 0⟩, ⟨10, 50⟩, ⟨80, 30⟩])
          ((i : ℤ) + ([⟨0, 0⟩, ⟨10, 50⟩, ⟨80, 30⟩] : List Point).length) ≠
        pyGet (doublePoints [⟨0, 0⟩, ⟨10, 50⟩, ⟨80, 30⟩]) (i : ℤ) := by
    intro i hi
    have hlen3 : ([⟨0, 0⟩, ⟨10, 50⟩, ⟨80, 30⟩] : List Point).length = 3 := rfl
    rw [hd, hlen3]
    rw [hlen3] at hi
    interval_cases i
    · intro he
      have hx := congrArg Point.x he
      have e1 : (pyGet [⟨0, 0⟩, ⟨5, 25⟩, ⟨10, 50⟩, ⟨45, 40⟩, ⟨80, 30⟩,
          ⟨40, 15⟩] (((0 : ℕ) : ℤ) + ((3 : ℕ) : ℤ))).x = 45 := rfl
      have e2 : (pyGet ([⟨0, 0⟩, ⟨5, 25⟩, ⟨10, 50⟩, ⟨45, 40⟩, ⟨80, 30⟩,
          ⟨40, 15⟩] : List Point) ((0 : ℕ) : ℤ)).x = 0 := rfl
      rw [e1, e2] at hx
      norm_num at hx
    · intro he
      have hx := congrArg Point.x he
      have e1 : (pyGet [⟨0, 0⟩, ⟨5, 25⟩, ⟨10, 50⟩, ⟨45, 40⟩, ⟨80, 30⟩,
          ⟨40, 15⟩] (((1 : ℕ) : ℤ) + ((3 : ℕ) : ℤ))).x = 80 := rfl
      have e2 : (pyGet ([⟨0, 0⟩, ⟨5, 25⟩, ⟨10, 50⟩, ⟨45, 40⟩, ⟨80, 30⟩,
          ⟨40, 15⟩] : List Point) ((1 : ℕ) : ℤ)).x = 5 := rfl
      rw [e1, e2] at hx
      norm_num at hx
    · intro he
      have hx := congrArg Point.x he
      have e1 : (pyGet [⟨0, 0⟩, ⟨5, 25⟩, ⟨10, 50⟩, ⟨45, 40⟩, ⟨80, 30⟩,
          ⟨40, 15⟩] (((2 : ℕ) : ℤ) + ((3 : ℕ) : ℤ))).x = 40 := rfl
      have e2 : (pyGet ([⟨0, 0⟩, ⟨5, 25⟩, ⟨10, 50⟩, ⟨45, 40⟩, ⟨80, 30⟩,
          ⟨40, 15⟩] : List Point) ((2 : ℕ) : ℤ)).x = 10 := rfl
      rw [e1, e2] at hx
      norm_num at hx
  exact ⟨hnd, rigid_invariance [⟨0, 0⟩, ⟨10, 50⟩, ⟨80, 30⟩] 0 ⟨3, 4⟩ hnd⟩

end SymmetrySrc
